import Mathlib

/-!
# Verification of the archival file-encryption engine of PROJECT_BACKEND

Shallow embedding of `src/services/documentServices.js`
(`encryptDocumentFiles`, `decryptDocumentFiles`) and of the `MASTER_KEY`
startup validation in the server entry file.

Modelling choices:
* The filesystem is an association list from path strings to abstract file
  contents.  `process.cwd()` prefixing by `path.join` is dropped: all paths
  are the logical paths stored in the database, uniformly.
* File contents are an inductive: `plain n` is a plaintext blob identified
  by `n`; `cipher c` is the ciphertext obtained by encrypting content `c`.
* The fallible external operations (`encryptFile`, `decryptToStream`, the
  SQL `UPDATE`) are modelled by an environment `Env` of oracles that decide,
  per path / per document id, whether the call succeeds and with which
  metadata or error message.  The deterministic filesystem calls
  (`copyFileSync`, `renameSync`, `unlinkSync`, `existsSync`) act directly on
  the abstract disk; in the source they are only ever invoked under guards
  that make them succeed, so they are modelled as total.
* JavaScript truthiness is modelled where the source relies on it:
  `if (doc.doc_file)` is false for both `null` and the empty string;
  `if (doc.encryption_metadata)` is false for `null`;
  `ref.isEncrypted && ref.metadata` requires the boolean to be `true` and
  the metadata field to be present.
* The `encryptedAt` timestamp field of the stored metadata is omitted
  (pure provenance, never read back by the code under verification).
-/

/-- Core envelope metadata returned by `encryptFile` and stored per file:
`{iv, tag, encKey, wrapIV, wrapTag, checksum}` (values abstracted). -/
structure Meta where
  iv : Nat
  tag : Nat
  encKey : Nat
  wrapIV : Nat
  wrapTag : Nat
  checksum : Nat
deriving DecidableEq

/-- The `encryptionMeta` object persisted on the document row by
`encryptDocumentFiles`: the core metadata spread together with provenance
fields (`encryptedAt` omitted, see module comment). -/
structure EncMeta where
  core : Meta
  originalPath : String
  encryptedPath : String
  encryptedBy : Nat
  backupPath : String
deriving DecidableEq

/-- One element of the `doc_reference` JSONB array: either a plain path
string or a structured object `{path, isEncrypted, metadata}` (whose
`metadata` field may be absent). -/
inductive RefEntry where
  | plainPath (p : String)
  | structured (p : String) (isEnc : Bool) (md : Option Meta)
deriving DecidableEq

/-- A row of `document_tbl`, restricted to the columns the encryption
engine reads or writes. -/
structure Document where
  doc_id : Nat
  case_id : Nat
  doc_file : Option String
  doc_reference : Option (List RefEntry)
  is_encrypted : Option Bool
  is_deleted : Option Bool
  encryption_metadata : Option EncMeta
  doc_last_updated_by : Option Nat
deriving DecidableEq

/-- Abstract file content: a plaintext blob or the encryption of a content. -/
inductive Content where
  | plain (n : Nat)
  | cipher (c : Content)
deriving DecidableEq

/-- The filesystem: association list from paths to contents. -/
abbrev Disk : Type := List (String × Content)

/-- `fs` read: content stored at a path, if any. -/
def diskLookup (d : Disk) (p : String) : Option Content :=
  match d.find? (fun e => e.1 == p) with
  | some e => some e.2
  | none => none

/-- `fs.existsSync`. -/
def diskExists (d : Disk) (p : String) : Bool :=
  (diskLookup d p).isSome

/-- Remove a path (used by `unlinkSync` and as part of write/rename). -/
def diskErase (d : Disk) (p : String) : Disk :=
  d.filter (fun e => !(e.1 == p))

/-- Write content at a path, replacing any previous content. -/
def diskWrite (d : Disk) (p : String) (c : Content) : Disk :=
  (p, c) :: diskErase d p

/-- `fs.copyFileSync src dst` (only ever called when `src` exists). -/
def diskCopy (d : Disk) (src dst : String) : Disk :=
  match diskLookup d src with
  | some c => diskWrite d dst c
  | none => d

/-- `fs.renameSync src dst` (only ever called when `src` exists). -/
def diskRename (d : Disk) (src dst : String) : Disk :=
  match diskLookup d src with
  | some c => diskWrite (diskErase d src) dst c
  | none => d

/-- `encryptFile({srcPath, destPath})` on success: writes at `dst` the
encryption of the content at `src`. -/
def diskEncryptWrite (d : Disk) (src dst : String) : Disk :=
  match diskLookup d src with
  | some c => diskWrite d dst (.cipher c)
  | none => d

/-- Oracles for the fallible external calls.
`encryptResult p`: outcome of `encryptFile` reading path `p` (`.error msg`
models a throw).  `decryptErr p`: `some msg` iff `decryptToStream` on
encrypted path `p` throws.  `persistErr id`: `some msg` iff the SQL
`UPDATE ... WHERE doc_id = id` rejects. -/
structure Env where
  encryptResult : String → Except String Meta
  decryptErr : String → Option String
  persistErr : Nat → Option String

/-- Database plus filesystem state threaded through the orchestrators. -/
structure SysState where
  db : List Document
  disk : Disk
deriving DecidableEq

/-- Outcome of the per-document loop body: pushed to `success`, pushed to
`failed`, or (when the truthiness guard fails) pushed to neither. -/
inductive DocOutcome where
  | success
  | failed (err : String)
  | skipped
deriving DecidableEq

/-- JavaScript truthiness of a nullable string column: `null` and `""` are
falsy. -/
def truthyFile : Option String → Bool
  | none => false
  | some s => !(s == "")

/-- Candidate filter of the encrypt query: same case, `is_encrypted` null or
false, not deleted, `doc_file` non-null. -/
def encryptCandidatePred (caseId : Nat) (d : Document) : Bool :=
  d.case_id == caseId &&
  (d.is_encrypted == none || d.is_encrypted == some false) &&
  (d.is_deleted == none || d.is_deleted == some false) &&
  d.doc_file.isSome

/-- Candidate filter of the decrypt query: same case, `is_encrypted = TRUE`,
not deleted (no condition on `doc_file`). -/
def decryptCandidatePred (caseId : Nat) (d : Document) : Bool :=
  d.case_id == caseId &&
  d.is_encrypted == some true &&
  (d.is_deleted == none || d.is_deleted == some false)

/-- The `results` object: `success`, `failed` (`{docId, error}` pairs) and
`totalCount`. -/
structure BatchResult where
  success : List Nat
  failed : List (Nat × String)
  totalCount : Nat
deriving DecidableEq

/-- The encrypt-direction `UPDATE document_tbl SET is_encrypted = TRUE,
encryption_metadata = $1, doc_reference = $2, doc_last_updated_by = $3
WHERE doc_id = $4`. -/
def dbUpdateEncrypt (db : List Document) (docId : Nat) (meta : EncMeta)
    (refs : Option (List RefEntry)) (uid : Nat) : List Document :=
  db.map fun d =>
    if d.doc_id == docId then
      { d with is_encrypted := some true, encryption_metadata := some meta,
               doc_reference := refs, doc_last_updated_by := some uid }
    else d

/-- The decrypt-direction `UPDATE document_tbl SET is_encrypted = FALSE,
encryption_metadata = NULL, doc_reference = $1, doc_last_updated_by = $2
WHERE doc_id = $3`. -/
def dbUpdateDecrypt (db : List Document) (docId : Nat)
    (refs : Option (List RefEntry)) (uid : Nat) : List Document :=
  db.map fun d =>
    if d.doc_id == docId then
      { d with is_encrypted := some false, encryption_metadata := none,
               doc_reference := refs, doc_last_updated_by := some uid }
    else d

/-- Encrypt one reference entry that is a plain path `p` (the body of the
reference loop for an existing-or-missing plain path): backup, encrypt to a
temp file, rename; a caught failure keeps the original plain path, and a
missing file keeps the original plain path without touching the disk. -/
def encryptRefOne (env : Env) (disk : Disk) (p : String) : Disk × RefEntry :=
  if diskExists disk p then
    let disk1 := diskCopy disk p (p ++ ".original")
    match env.encryptResult p with
    | .error _ => (disk1, .plainPath p)
    | .ok m =>
      let disk2 := diskEncryptWrite disk1 p (p ++ ".tmp.enc")
      let disk3 := diskRename disk2 (p ++ ".tmp.enc") p
      (disk3, .structured p true (some m))
  else (disk, .plainPath p)

/-- The reference loop of the encrypt direction.  A structured entry makes
`path.join(process.cwd(), refString)` throw a `TypeError` (the source's
`refString = typeof refPath === "string" ? refPath : refPath` is the
identity), which escapes to the per-document catch: the whole document
fails. -/
def encryptRefList (env : Env) : Disk → List RefEntry →
    Except (Disk × String) (Disk × List RefEntry)
  | disk, [] => .ok (disk, [])
  | disk, .structured _ _ _ :: _ =>
      .error (disk, "TypeError: Path must be a string")
  | disk, .plainPath p :: rest =>
    let res := encryptRefOne env disk p
    match encryptRefList env res.1 rest with
    | .error e => .error e
    | .ok (disk2, l) => .ok (disk2, res.2 :: l)

/-- `doc_reference` handling of the encrypt direction: `null` passes
through as `null`, an array is rebuilt by the reference loop. -/
def encryptRefs (env : Env) (disk : Disk) :
    Option (List RefEntry) →
    Except (Disk × String) (Disk × Option (List RefEntry))
  | none => .ok (disk, none)
  | some refs =>
    match encryptRefList env disk refs with
    | .error e => .error e
    | .ok (disk2, l) => .ok (disk2, some l)

/-- The per-document try block of `encryptDocumentFiles` for a document
whose `doc_file` is the truthy path `fp`: existence check, backup copy,
encrypt to temp, rename over the original, reference loop, metadata
`UPDATE`.  An `.error` carries the state at the point of the throw. -/
def encryptTryBody (env : Env) (uid : Nat) (st : SysState) (doc : Document)
    (fp : String) : Except (SysState × String) SysState :=
  if !(diskExists st.disk fp) then
    .error (st, "File not found: " ++ fp)
  else
    let disk1 := diskCopy st.disk fp (fp ++ ".original")
    match env.encryptResult fp with
    | .error msg => .error ({ st with disk := disk1 }, msg)
    | .ok m =>
      let disk2 := diskEncryptWrite disk1 fp (fp ++ ".tmp.enc")
      let disk3 := diskRename disk2 (fp ++ ".tmp.enc") fp
      let encMeta : EncMeta :=
        { core := m, originalPath := fp, encryptedPath := fp,
          encryptedBy := uid, backupPath := fp ++ ".original" }
      match encryptRefs env disk3 doc.doc_reference with
      | .error (disk4, msg) => .error ({ st with disk := disk4 }, msg)
      | .ok (disk4, updatedRefs) =>
        match env.persistErr doc.doc_id with
        | some msg => .error ({ st with disk := disk4 }, msg)
        | none =>
          .ok { db := dbUpdateEncrypt st.db doc.doc_id encMeta updatedRefs uid,
                disk := disk4 }

/-- The rollback attempted in the per-document catch of the encrypt
direction: if the backup exists, copy it back over the file and unlink it. -/
def rollbackPrimary (disk : Disk) (fp : String) : Disk :=
  if diskExists disk (fp ++ ".original") then
    diskErase (diskCopy disk (fp ++ ".original") fp) (fp ++ ".original")
  else disk

/-- One iteration of the document loop of `encryptDocumentFiles`:
truthiness guard on `doc_file`, try body, catch with rollback. -/
def encryptOneDoc (env : Env) (uid : Nat) (st : SysState) (doc : Document) :
    SysState × DocOutcome :=
  match doc.doc_file with
  | none => (st, .skipped)
  | some fp =>
    if fp == "" then (st, .skipped)
    else
      match encryptTryBody env uid st doc fp with
      | .ok st1 => (st1, .success)
      | .error (st1, msg) =>
        ({ st1 with disk := rollbackPrimary st1.disk fp }, .failed msg)

/-- The document loop, accumulating `success` and `failed` in iteration
order. -/
def encryptLoop (env : Env) (uid : Nat) :
    SysState → List Document → SysState × List Nat × List (Nat × String)
  | st, [] => (st, [], [])
  | st, d :: ds =>
    match encryptOneDoc env uid st d with
    | (st1, .success) =>
      let r := encryptLoop env uid st1 ds
      (r.1, d.doc_id :: r.2.1, r.2.2)
    | (st1, .failed e) =>
      let r := encryptLoop env uid st1 ds
      (r.1, r.2.1, (d.doc_id, e) :: r.2.2)
    | (st1, .skipped) => encryptLoop env uid st1 ds

/-- `encryptDocumentFiles(caseId, userId)`: query the candidate set, return
immediately when it is empty, otherwise run the document loop. -/
def encryptDocumentFiles (env : Env) (caseId uid : Nat) (st : SysState) :
    BatchResult × SysState :=
  let docs := st.db.filter (encryptCandidatePred caseId)
  if docs.isEmpty then
    ({ success := [], failed := [], totalCount := docs.length }, st)
  else
    let r := encryptLoop env uid st docs
    ({ success := r.2.1, failed := r.2.2, totalCount := docs.length }, r.1)

/-- Decrypt one reference entry (the body of the reference loop of the
decrypt direction): a structured entry marked encrypted and carrying
metadata is decrypted (temp write, rename, backup cleanup) and re-pointed
to its plain path, a caught per-reference failure keeps the structured
entry, and every other entry is pushed as its plain path. -/
def decryptRefOne (env : Env) (disk : Disk) : RefEntry → Disk × RefEntry
  | .structured p true (some m) =>
    (match env.decryptErr p, diskLookup disk p with
     | none, some (.cipher c) =>
       let d1 := diskWrite disk (p ++ ".tmp.dec") c
       let d2 := diskRename d1 (p ++ ".tmp.dec") p
       let d3 := if diskExists d2 (p ++ ".original") then
                   diskErase d2 (p ++ ".original")
                 else d2
       (d3, .plainPath p)
     | _, _ => (disk, .structured p true (some m)))
  | .structured p _ _ => (disk, .plainPath p)
  | .plainPath p => (disk, .plainPath p)

/-- The reference loop of the decrypt direction (no throw escapes it). -/
def decryptRefList (env : Env) : Disk → List RefEntry → Disk × List RefEntry
  | disk, [] => (disk, [])
  | disk, r :: rest =>
    let h := decryptRefOne env disk r
    let t := decryptRefList env h.1 rest
    (t.1, h.2 :: t.2)

/-- `doc_reference` handling of the decrypt direction. -/
def decryptRefs (env : Env) (disk : Disk) :
    Option (List RefEntry) → Disk × Option (List RefEntry)
  | none => (disk, none)
  | some refs =>
    let r := decryptRefList env disk refs
    (r.1, some r.2)

/-- The per-document try block of `decryptDocumentFiles` for a truthy
`doc_file` path `fp`: decrypt to a temp file, rename, unlink the backup if
present, reference loop, metadata `UPDATE`.  `decryptToStream` succeeding
requires the oracle to allow it and the content at `fp` to actually be a
ciphertext. -/
def decryptTryBody (env : Env) (uid : Nat) (st : SysState) (doc : Document)
    (fp : String) : Except (SysState × String) SysState :=
  match env.decryptErr fp with
  | some msg => .error (st, msg)
  | none =>
    match diskLookup st.disk fp with
    | some (.cipher c) =>
      let disk1 := diskWrite st.disk (fp ++ ".tmp.dec") c
      let disk2 := diskRename disk1 (fp ++ ".tmp.dec") fp
      let disk3 := if diskExists disk2 (fp ++ ".original") then
                     diskErase disk2 (fp ++ ".original")
                   else disk2
      let r := decryptRefs env disk3 doc.doc_reference
      match env.persistErr doc.doc_id with
      | some msg => .error ({ st with disk := r.1 }, msg)
      | none =>
        .ok { db := dbUpdateDecrypt st.db doc.doc_id r.2 uid, disk := r.1 }
    | _ => .error (st, "Unsupported state or unable to authenticate data")

/-- One iteration of the document loop of `decryptDocumentFiles`:
truthiness guard `if (doc.doc_file && doc.encryption_metadata)`, try body,
catch WITHOUT any rollback. -/
def decryptOneDoc (env : Env) (uid : Nat) (st : SysState) (doc : Document) :
    SysState × DocOutcome :=
  match doc.doc_file, doc.encryption_metadata with
  | some fp, some _ =>
    if fp == "" then (st, .skipped)
    else
      match decryptTryBody env uid st doc fp with
      | .ok st1 => (st1, .success)
      | .error (st1, msg) => (st1, .failed msg)
  | _, _ => (st, .skipped)

/-- The decrypt document loop. -/
def decryptLoop (env : Env) (uid : Nat) :
    SysState → List Document → SysState × List Nat × List (Nat × String)
  | st, [] => (st, [], [])
  | st, d :: ds =>
    match decryptOneDoc env uid st d with
    | (st1, .success) =>
      let r := decryptLoop env uid st1 ds
      (r.1, d.doc_id :: r.2.1, r.2.2)
    | (st1, .failed e) =>
      let r := decryptLoop env uid st1 ds
      (r.1, r.2.1, (d.doc_id, e) :: r.2.2)
    | (st1, .skipped) => decryptLoop env uid st1 ds

/-- `decryptDocumentFiles(caseId, userId)`. -/
def decryptDocumentFiles (env : Env) (caseId uid : Nat) (st : SysState) :
    BatchResult × SysState :=
  let docs := st.db.filter (decryptCandidatePred caseId)
  if docs.isEmpty then
    ({ success := [], failed := [], totalCount := docs.length }, st)
  else
    let r := decryptLoop env uid st docs
    ({ success := r.2.1, failed := r.2.2, totalCount := docs.length }, r.1)

/-- The `MASTER_KEY` startup validation of the server entry file:
`!process.env.MASTER_KEY` exits, `length !== 64` exits, any other value
proceeds.  Returns `true` iff startup proceeds past the validation. -/
def validateMasterKey : Option String → Bool
  | none => false
  | some k => !(k == "") && k.length == 64

/-- Modelled from the spec (for comparison with `validateMasterKey`): a
master key is well-formed when it is exactly 64 hexadecimal characters. -/
def specHexChar (c : Char) : Bool :=
  (('0' ≤ c) && (c ≤ '9')) || (('a' ≤ c) && (c ≤ 'f')) ||
  (('A' ≤ c) && (c ≤ 'F'))

/-- Modelled from the spec: the spec-side master-key validity predicate. -/
def specValidMasterKey (k : String) : Bool :=
  k.length == 64 && k.data.all specHexChar

/-- The disk after the primary-file part of the decrypt try block: write the
decrypted content to the temp path, rename it over the target, unlink the
backup if present.  `decryptTryBody` reduces to this once the oracle allows
the decrypt and the target holds a ciphertext. -/
def decryptPrimaryDisk (d : Disk) (fp : String) (c : Content) : Disk :=
  let d1 := diskWrite d (fp ++ ".tmp.dec") c
  let d2 := diskRename d1 (fp ++ ".tmp.dec") fp
  if diskExists d2 (fp ++ ".original") then diskErase d2 (fp ++ ".original")
  else d2

/-- The truthiness guard of the decrypt loop body,
`if (doc.doc_file && doc.encryption_metadata)`. -/
def decryptDocGuard (d : Document) : Bool :=
  truthyFile d.doc_file && d.encryption_metadata.isSome

/-- What the encrypt reference loop makes of a plain reference path `p`,
as a function of the disk at the time the reference is reached: present
and encryptable → structured encrypted entry; otherwise the original
plain path. -/
def encRefExpected (env : Env) (d : Disk) (p : String) : RefEntry :=
  if diskExists d p then
    match env.encryptResult p with
    | .ok m => .structured p true (some m)
    | .error _ => .plainPath p
  else .plainPath p

/-- The logical path carried by a reference entry. -/
def refPath : RefEntry → String
  | .plainPath p => p
  | .structured p _ _ => p

/-- The path-identity signature of a database row: its id together with the
logical paths of its reference entries. -/
def rowSig (d : Document) : Nat × Option (List String) :=
  (d.doc_id, d.doc_reference.map (List.map refPath))

-- Concrete data for sanity checks, witnesses and counterexamples.

/-- Concrete metadata used in sanity checks and witnesses. -/
def meta0 : Meta := ⟨1, 2, 3, 4, 5, 6⟩

/-- Concrete stored metadata for an encrypted document. -/
def encMeta0 : EncMeta := ⟨meta0, "u/g.pdf", "u/g.pdf", 9, "u/g.pdf.original"⟩

/-- A fully benign environment. -/
def envOk : Env :=
  { encryptResult := fun _ => .ok meta0,
    decryptErr := fun _ => none,
    persistErr := fun _ => none }

/-- Environment whose metadata persist calls all fail. -/
def envPersistFail : Env :=
  { encryptResult := fun _ => .ok meta0,
    decryptErr := fun _ => none,
    persistErr := fun _ => some "db error" }

/-- Environment whose `encryptFile` calls all fail. -/
def envEncFail : Env :=
  { encryptResult := fun _ => .error "enc error",
    decryptErr := fun _ => none,
    persistErr := fun _ => none }

/-- A document with one plaintext file, used in sanity checks. -/
def doc0 : Document :=
  { doc_id := 1, case_id := 7, doc_file := some "u/f.pdf",
    doc_reference := none, is_encrypted := none, is_deleted := none,
    encryption_metadata := none, doc_last_updated_by := none }

/-- Initial state for sanity checks: one document, its file on disk. -/
def st0 : SysState := { db := [doc0], disk := [("u/f.pdf", .plain 0)] }

/-- A decrypt candidate whose `doc_file` is `NULL`. -/
def docNullFile : Document :=
  { doc_id := 2, case_id := 7, doc_file := none,
    doc_reference := none, is_encrypted := some true, is_deleted := none,
    encryption_metadata := none, doc_last_updated_by := none }

/-- State containing only the null-file decrypt candidate. -/
def stC1 : SysState := { db := [docNullFile], disk := [] }

/-- Encrypt candidate whose file is present (batch-isolation scenario). -/
def docA : Document :=
  { doc_id := 11, case_id := 7, doc_file := some "u/a.pdf",
    doc_reference := none, is_encrypted := none, is_deleted := none,
    encryption_metadata := none, doc_last_updated_by := none }

/-- Encrypt candidate whose file is missing (batch-isolation scenario). -/
def docB : Document :=
  { doc_id := 12, case_id := 7, doc_file := some "u/b.pdf",
    doc_reference := none, is_encrypted := some false, is_deleted := none,
    encryption_metadata := none, doc_last_updated_by := none }

/-- Batch-isolation state: two candidates, only `docA`'s file on disk. -/
def stC2 : SysState :=
  { db := [docA, docB], disk := [("u/a.pdf", .plain 0)] }

/-- An encrypted document (decrypt-direction scenarios). -/
def docEnc : Document :=
  { doc_id := 3, case_id := 7, doc_file := some "u/g.pdf",
    doc_reference := none, is_encrypted := some true, is_deleted := none,
    encryption_metadata := some encMeta0, doc_last_updated_by := none }

/-- State with one encrypted document, its ciphertext on disk. -/
def stEnc : SysState :=
  { db := [docEnc], disk := [("u/g.pdf", .cipher (.plain 5))] }

/-- Encrypt candidate with two plain references, one present one missing. -/
def docRefs : Document :=
  { doc_id := 4, case_id := 7, doc_file := some "u/d.pdf",
    doc_reference := some [.plainPath "u/r1.pdf", .plainPath "u/r2.pdf"],
    is_encrypted := none, is_deleted := none,
    encryption_metadata := none, doc_last_updated_by := none }

/-- State for the reference-partial-failure scenario: primary and first
reference on disk, second reference missing. -/
def stRefs : SysState :=
  { db := [docRefs],
    disk := [("u/d.pdf", .plain 1), ("u/r1.pdf", .plain 2)] }

/-- Encrypted document with a structured reference lacking metadata. -/
def docC10 : Document :=
  { doc_id := 5, case_id := 7, doc_file := some "u/m.pdf",
    doc_reference := some [.structured "u/r3.pdf" true none],
    is_encrypted := some true, is_deleted := none,
    encryption_metadata := some encMeta0, doc_last_updated_by := none }

/-- State for the metadata-less structured reference scenario. -/
def stC10 : SysState :=
  { db := [docC10],
    disk := [("u/m.pdf", .cipher (.plain 7)), ("u/r3.pdf", .cipher (.plain 8))] }

/-- Path separation between two documents: the later document's primary
path is none of the three paths (target, backup, temp) the earlier
document's transform may touch.  This encodes that distinct documents
point at distinct real files. -/
def encPathSep (a b : Document) : Prop :=
  b.doc_file.getD "" ≠ a.doc_file.getD "" ∧
  b.doc_file.getD "" ≠ a.doc_file.getD "" ++ ".original" ∧
  b.doc_file.getD "" ≠ a.doc_file.getD "" ++ ".tmp.enc"

instance (a b : Document) : Decidable (encPathSep a b) := by
  unfold encPathSep; infer_instance

/-- Path separation between two reference paths, analogous to
`encPathSep`. -/
def refPathSep (a b : String) : Prop :=
  b ≠ a ∧ b ≠ a ++ ".original" ∧ b ≠ a ++ ".tmp.enc"

instance (a b : String) : Decidable (refPathSep a b) := by
  unfold refPathSep; infer_instance

/-- A 64-character key that is not hexadecimal. -/
def zKey : String := String.mk (List.replicate 64 'z')

/-- A 64-character lowercase-hex key. -/
def hexKey : String := String.mk (List.replicate 64 'a')

-- Sanity checks on tiny concrete runs (kept as `example`s).

example :
    (encryptDocumentFiles envOk 7 9 st0).1 =
      { success := [1], failed := [], totalCount := 1 } := by decide

example :
    diskLookup (encryptDocumentFiles envOk 7 9 st0).2.disk "u/f.pdf" =
      some (.cipher (.plain 0)) := by decide

example :
    diskLookup (encryptDocumentFiles envOk 7 9 st0).2.disk "u/f.pdf.original" =
      some (.plain 0) := by decide

-- ## Disk lemmas

theorem diskLookup_cons (e : String × Content) (tl : Disk) (q : String) :
    diskLookup (e :: tl) q = if e.1 = q then some e.2 else diskLookup tl q := by
  by_cases h : e.1 = q
  · simp [diskLookup, List.find?_cons, h]
  · simp [diskLookup, List.find?_cons, h]

theorem diskLookup_erase (d : Disk) (p q : String) :
    diskLookup (diskErase d p) q = if q = p then none else diskLookup d q := by
  induction d with
  | nil => simp [diskErase, diskLookup]
  | cons e tl ih =>
    by_cases hp : e.1 = p
    · have he : diskErase (e :: tl) p = diskErase tl p := by
        simp [diskErase, List.filter_cons, hp]
      rw [he, ih, diskLookup_cons]
      by_cases hq : q = p
      · simp [hq]
      · have : ¬ e.1 = q := by rw [hp]; exact fun h => hq h.symm
        simp [hq, this]
    · have he : diskErase (e :: tl) p = e :: diskErase tl p := by
        simp [diskErase, List.filter_cons, hp]
      rw [he, diskLookup_cons, diskLookup_cons, ih]
      by_cases hq : e.1 = q
      · have : ¬ q = p := by rw [← hq]; exact fun h => hp h
        simp [hq, this]
      · simp [hq]

theorem diskLookup_write (d : Disk) (p : String) (c : Content) (q : String) :
    diskLookup (diskWrite d p c) q = if q = p then some c else diskLookup d q := by
  rw [diskWrite, diskLookup_cons, diskLookup_erase]
  by_cases hq : q = p
  · simp [hq]
  · have : ¬ p = q := fun h => hq h.symm
    simp [hq, this]

theorem diskExists_iff (d : Disk) (p : String) :
    diskExists d p = true ↔ ∃ c, diskLookup d p = some c := by
  unfold diskExists
  cases h : diskLookup d p <;> simp [h]

theorem diskCopy_eq (d : Disk) (src dst : String) (c : Content)
    (h : diskLookup d src = some c) :
    diskCopy d src dst = diskWrite d dst c := by
  simp [diskCopy, h]

theorem diskRename_eq (d : Disk) (src dst : String) (c : Content)
    (h : diskLookup d src = some c) :
    diskRename d src dst = diskWrite (diskErase d src) dst c := by
  simp [diskRename, h]

theorem diskEncryptWrite_eq (d : Disk) (src dst : String) (c : Content)
    (h : diskLookup d src = some c) :
    diskEncryptWrite d src dst = diskWrite d dst (.cipher c) := by
  simp [diskEncryptWrite, h]

-- ## Path-suffix distinctness helpers

theorem strApp_ne_of_len (s : String) {a b : String}
    (h : a.length ≠ b.length) : s ++ a ≠ s ++ b := by
  intro he
  apply h
  have hl := congrArg String.length he
  simp only [String.length_append] at hl
  omega

theorem str_ne_appendSuffix (s : String) {a : String}
    (h : a.length ≠ 0) : s ≠ s ++ a := by
  intro he
  apply h
  have hl := congrArg String.length he
  simp only [String.length_append] at hl
  omega

theorem len_original : ".original".length = 9 := by decide

theorem len_tmpenc : ".tmp.enc".length = 8 := by decide

theorem len_tmpdec : ".tmp.dec".length = 8 := by decide

theorem fp_ne_orig (fp : String) : fp ≠ fp ++ ".original" :=
  str_ne_appendSuffix fp (by decide)

theorem fp_ne_tmpenc (fp : String) : fp ≠ fp ++ ".tmp.enc" :=
  str_ne_appendSuffix fp (by decide)

theorem fp_ne_tmpdec (fp : String) : fp ≠ fp ++ ".tmp.dec" :=
  str_ne_appendSuffix fp (by decide)

theorem orig_ne_tmpenc (fp : String) : fp ++ ".original" ≠ fp ++ ".tmp.enc" :=
  strApp_ne_of_len fp (by decide)

theorem orig_ne_tmpdec (fp : String) : fp ++ ".original" ≠ fp ++ ".tmp.dec" :=
  strApp_ne_of_len fp (by decide)

-- ## Simple rewriting helpers

theorem lookup_write_self (d : Disk) (p : String) (c : Content) :
    diskLookup (diskWrite d p c) p = some c := by
  rw [diskLookup_write, if_pos rfl]

theorem lookup_write_ne (d : Disk) (p : String) (c : Content) {q : String}
    (h : q ≠ p) : diskLookup (diskWrite d p c) q = diskLookup d q := by
  rw [diskLookup_write, if_neg h]

theorem lookup_erase_self (d : Disk) (p : String) :
    diskLookup (diskErase d p) p = none := by
  rw [diskLookup_erase, if_pos rfl]

theorem lookup_erase_ne (d : Disk) (p : String) {q : String} (h : q ≠ p) :
    diskLookup (diskErase d p) q = diskLookup d q := by
  rw [diskLookup_erase, if_neg h]

theorem diskExists_of_lookup {d : Disk} {p : String} {c : Content}
    (h : diskLookup d p = some c) : diskExists d p = true := by
  rw [diskExists, h]; rfl

theorem diskExists_none {d : Disk} {p : String}
    (h : diskLookup d p = none) : diskExists d p = false := by
  rw [diskExists, h]; rfl

-- ## The per-document try body of the encrypt direction

theorem encryptTryBody_error_db (env : Env) (uid : Nat) (st : SysState)
    (doc : Document) (fp : String) (e : SysState × String)
    (h : encryptTryBody env uid st doc fp = .error e) : e.1.db = st.db := by
  unfold encryptTryBody at h
  by_cases hex : diskExists st.disk fp
  · simp only [hex, Bool.not_true, Bool.false_eq_true, if_false] at h
    cases henc : env.encryptResult fp with
    | error msg => rw [henc] at h; cases h; rfl
    | ok m =>
      rw [henc] at h
      simp only at h
      cases href : encryptRefs env
          (diskRename
            (diskEncryptWrite (diskCopy st.disk fp (fp ++ ".original")) fp
              (fp ++ ".tmp.enc"))
            (fp ++ ".tmp.enc") fp) doc.doc_reference with
      | error ep => rw [href] at h; cases h; rfl
      | ok dr =>
        rw [href] at h
        cases hper : env.persistErr doc.doc_id with
        | some msg => rw [hper] at h; cases h; rfl
        | none => rw [hper] at h; cases h
  · rw [Bool.not_eq_true] at hex
    simp only [hex, Bool.not_false, if_true] at h
    cases h; rfl

-- ## Encrypt direction: per-document characterizations

theorem encryptOneDoc_success_noRefs (env : Env) (uid : Nat) (st : SysState)
    (doc : Document) (fp : String) (c : Content) (m : Meta)
    (hfp : doc.doc_file = some fp) (hne : fp ≠ "")
    (href : doc.doc_reference = none)
    (hc : diskLookup st.disk fp = some c)
    (henc : env.encryptResult fp = .ok m)
    (hper : env.persistErr doc.doc_id = none) :
    (encryptOneDoc env uid st doc).2 = .success ∧
    (encryptOneDoc env uid st doc).1.db =
      dbUpdateEncrypt st.db doc.doc_id
        ⟨m, fp, fp, uid, fp ++ ".original"⟩ none uid ∧
    diskLookup (encryptOneDoc env uid st doc).1.disk fp =
      some (.cipher c) ∧
    diskLookup (encryptOneDoc env uid st doc).1.disk (fp ++ ".original") =
      some c ∧
    diskLookup (encryptOneDoc env uid st doc).1.disk (fp ++ ".tmp.enc") =
      none ∧
    ∀ q, q ≠ fp → q ≠ fp ++ ".original" → q ≠ fp ++ ".tmp.enc" →
      diskLookup (encryptOneDoc env uid st doc).1.disk q =
        diskLookup st.disk q := by
  have hex : diskExists st.disk fp = true := diskExists_of_lookup hc
  have hcopy : diskCopy st.disk fp (fp ++ ".original") =
      diskWrite st.disk (fp ++ ".original") c := diskCopy_eq _ _ _ _ hc
  set d1 := diskWrite st.disk (fp ++ ".original") c with hd1
  have h1fp : diskLookup d1 fp = some c := by
    rw [hd1, lookup_write_ne _ _ _ (fp_ne_orig fp), hc]
  have hencw : diskEncryptWrite d1 fp (fp ++ ".tmp.enc") =
      diskWrite d1 (fp ++ ".tmp.enc") (.cipher c) :=
    diskEncryptWrite_eq _ _ _ _ h1fp
  set d2 := diskWrite d1 (fp ++ ".tmp.enc") (.cipher c) with hd2
  have h2tmp : diskLookup d2 (fp ++ ".tmp.enc") = some (.cipher c) := by
    rw [hd2, lookup_write_self]
  have hren : diskRename d2 (fp ++ ".tmp.enc") fp =
      diskWrite (diskErase d2 (fp ++ ".tmp.enc")) fp (.cipher c) :=
    diskRename_eq _ _ _ _ h2tmp
  set d3 := diskWrite (diskErase d2 (fp ++ ".tmp.enc")) fp (.cipher c)
    with hd3
  have hbody : encryptTryBody env uid st doc fp =
      .ok { db := dbUpdateEncrypt st.db doc.doc_id
              ⟨m, fp, fp, uid, fp ++ ".original"⟩ none uid,
            disk := d3 } := by
    unfold encryptTryBody
    rw [hex]
    simp only [Bool.not_true, Bool.false_eq_true, if_false]
    rw [hcopy, henc]
    simp only
    rw [hencw, hren, href]
    simp only [encryptRefs]
    rw [hper]
  have hrun : encryptOneDoc env uid st doc =
      ({ db := dbUpdateEncrypt st.db doc.doc_id
           ⟨m, fp, fp, uid, fp ++ ".original"⟩ none uid,
         disk := d3 }, .success) := by
    have hb : (fp == "") = false := by simp [hne]
    simp only [encryptOneDoc, hfp, hb, Bool.false_eq_true, if_false, hbody]
  rw [hrun]
  refine ⟨rfl, rfl, ?_, ?_, ?_, ?_⟩
  · rw [hd3, lookup_write_self]
  · rw [hd3, lookup_write_ne _ _ _ (fun h => fp_ne_orig fp h.symm),
        lookup_erase_ne _ _ (orig_ne_tmpenc fp), hd2,
        lookup_write_ne _ _ _ (orig_ne_tmpenc fp), hd1, lookup_write_self]
  · rw [hd3, lookup_write_ne _ _ _ (fun h => fp_ne_tmpenc fp h.symm),
        lookup_erase_self]
  · intro q hq1 hq2 hq3
    rw [hd3, lookup_write_ne _ _ _ hq1, lookup_erase_ne _ _ hq3, hd2,
        lookup_write_ne _ _ _ hq3, hd1, lookup_write_ne _ _ _ hq2]

theorem encryptOneDoc_notFound (env : Env) (uid : Nat) (st : SysState)
    (doc : Document) (fp : String)
    (hfp : doc.doc_file = some fp) (hne : fp ≠ "")
    (hmiss : diskLookup st.disk fp = none) :
    (encryptOneDoc env uid st doc).2 =
      .failed ("File not found: " ++ fp) ∧
    (encryptOneDoc env uid st doc).1.db = st.db ∧
    (∀ q, q ≠ fp → q ≠ fp ++ ".original" →
      diskLookup (encryptOneDoc env uid st doc).1.disk q =
        diskLookup st.disk q) ∧
    (diskLookup st.disk (fp ++ ".original") = none →
      (encryptOneDoc env uid st doc).1.disk = st.disk) := by
  have hex : diskExists st.disk fp = false := diskExists_none hmiss
  have hbody : encryptTryBody env uid st doc fp =
      .error (st, "File not found: " ++ fp) := by
    unfold encryptTryBody
    rw [hex]
    simp only [Bool.not_false, if_true]
  have hb : (fp == "") = false := by simp [hne]
  have hrun : encryptOneDoc env uid st doc =
      ({ db := st.db, disk := rollbackPrimary st.disk fp }, .failed
        ("File not found: " ++ fp)) := by
    simp only [encryptOneDoc, hfp, hb, Bool.false_eq_true, if_false, hbody]
  rw [hrun]
  refine ⟨rfl, rfl, ?_, ?_⟩
  · intro q hq1 hq2
    unfold rollbackPrimary
    cases horig : diskLookup st.disk (fp ++ ".original") with
    | none => rw [diskExists_none horig]; simp
    | some cb =>
      rw [diskExists_of_lookup horig]
      simp only [if_true]
      rw [diskCopy_eq _ _ _ _ horig, lookup_erase_ne _ _ hq2,
          lookup_write_ne _ _ _ hq1]
  · intro horig
    unfold rollbackPrimary
    rw [diskExists_none horig]
    simp

theorem encryptOneDoc_encFail (env : Env) (uid : Nat) (st : SysState)
    (doc : Document) (fp : String) (c : Content) (msg : String)
    (hfp : doc.doc_file = some fp) (hne : fp ≠ "")
    (hc : diskLookup st.disk fp = some c)
    (henc : env.encryptResult fp = .error msg) :
    (encryptOneDoc env uid st doc).2 = .failed msg ∧
    (encryptOneDoc env uid st doc).1.db = st.db ∧
    diskLookup (encryptOneDoc env uid st doc).1.disk fp = some c ∧
    diskLookup (encryptOneDoc env uid st doc).1.disk (fp ++ ".original") =
      none ∧
    ∀ q, q ≠ fp → q ≠ fp ++ ".original" →
      diskLookup (encryptOneDoc env uid st doc).1.disk q =
        diskLookup st.disk q := by
  have hex : diskExists st.disk fp = true := diskExists_of_lookup hc
  have hcopy : diskCopy st.disk fp (fp ++ ".original") =
      diskWrite st.disk (fp ++ ".original") c := diskCopy_eq _ _ _ _ hc
  set d1 := diskWrite st.disk (fp ++ ".original") c with hd1
  have hbody : encryptTryBody env uid st doc fp =
      .error ({ st with disk := d1 }, msg) := by
    unfold encryptTryBody
    rw [hex]
    simp only [Bool.not_true, Bool.false_eq_true, if_false]
    rw [hcopy, henc]
  have hb : (fp == "") = false := by simp [hne]
  have hrun : encryptOneDoc env uid st doc =
      ({ db := st.db, disk := rollbackPrimary d1 fp }, .failed msg) := by
    simp only [encryptOneDoc, hfp, hb, Bool.false_eq_true, if_false, hbody]
  have h1orig : diskLookup d1 (fp ++ ".original") = some c := by
    rw [hd1, lookup_write_self]
  have hroll : rollbackPrimary d1 fp =
      diskErase (diskWrite d1 fp c) (fp ++ ".original") := by
    unfold rollbackPrimary
    rw [diskExists_of_lookup h1orig]
    simp only [if_true]
    rw [diskCopy_eq _ _ _ _ h1orig]
  rw [hrun, hroll]
  refine ⟨rfl, rfl, ?_, ?_, ?_⟩
  · rw [lookup_erase_ne _ _ (fp_ne_orig fp), lookup_write_self]
  · rw [lookup_erase_self]
  · intro q hq1 hq2
    rw [lookup_erase_ne _ _ hq2, lookup_write_ne _ _ _ hq1, hd1,
        lookup_write_ne _ _ _ hq2]

theorem encryptOneDoc_persistFail_noRefs (env : Env) (uid : Nat)
    (st : SysState) (doc : Document) (fp : String) (c : Content)
    (m : Meta) (msg : String)
    (hfp : doc.doc_file = some fp) (hne : fp ≠ "")
    (href : doc.doc_reference = none)
    (hc : diskLookup st.disk fp = some c)
    (henc : env.encryptResult fp = .ok m)
    (hper : env.persistErr doc.doc_id = some msg) :
    (encryptOneDoc env uid st doc).2 = .failed msg ∧
    (encryptOneDoc env uid st doc).1.db = st.db ∧
    diskLookup (encryptOneDoc env uid st doc).1.disk fp = some c ∧
    diskLookup (encryptOneDoc env uid st doc).1.disk (fp ++ ".original") =
      none ∧
    diskLookup (encryptOneDoc env uid st doc).1.disk (fp ++ ".tmp.enc") =
      none ∧
    ∀ q, q ≠ fp → q ≠ fp ++ ".original" → q ≠ fp ++ ".tmp.enc" →
      diskLookup (encryptOneDoc env uid st doc).1.disk q =
        diskLookup st.disk q := by
  have hex : diskExists st.disk fp = true := diskExists_of_lookup hc
  have hcopy : diskCopy st.disk fp (fp ++ ".original") =
      diskWrite st.disk (fp ++ ".original") c := diskCopy_eq _ _ _ _ hc
  set d1 := diskWrite st.disk (fp ++ ".original") c with hd1
  have h1fp : diskLookup d1 fp = some c := by
    rw [hd1, lookup_write_ne _ _ _ (fp_ne_orig fp), hc]
  have hencw : diskEncryptWrite d1 fp (fp ++ ".tmp.enc") =
      diskWrite d1 (fp ++ ".tmp.enc") (.cipher c) :=
    diskEncryptWrite_eq _ _ _ _ h1fp
  set d2 := diskWrite d1 (fp ++ ".tmp.enc") (.cipher c) with hd2
  have h2tmp : diskLookup d2 (fp ++ ".tmp.enc") = some (.cipher c) := by
    rw [hd2, lookup_write_self]
  have hren : diskRename d2 (fp ++ ".tmp.enc") fp =
      diskWrite (diskErase d2 (fp ++ ".tmp.enc")) fp (.cipher c) :=
    diskRename_eq _ _ _ _ h2tmp
  set d3 := diskWrite (diskErase d2 (fp ++ ".tmp.enc")) fp (.cipher c)
    with hd3
  have h3orig : diskLookup d3 (fp ++ ".original") = some c := by
    rw [hd3, lookup_write_ne _ _ _ (fun h => fp_ne_orig fp h.symm),
        lookup_erase_ne _ _ (orig_ne_tmpenc fp), hd2,
        lookup_write_ne _ _ _ (orig_ne_tmpenc fp), hd1, lookup_write_self]
  have h3tmp : diskLookup d3 (fp ++ ".tmp.enc") = none := by
    rw [hd3, lookup_write_ne _ _ _ (fun h => fp_ne_tmpenc fp h.symm),
        lookup_erase_self]
  have hbody : encryptTryBody env uid st doc fp =
      .error ({ st with disk := d3 }, msg) := by
    unfold encryptTryBody
    rw [hex]
    simp only [Bool.not_true, Bool.false_eq_true, if_false]
    rw [hcopy, henc]
    simp only
    rw [hencw, hren, href]
    simp only [encryptRefs]
    rw [hper]
  have hb : (fp == "") = false := by simp [hne]
  have hrun : encryptOneDoc env uid st doc =
      ({ db := st.db, disk := rollbackPrimary d3 fp }, .failed msg) := by
    simp only [encryptOneDoc, hfp, hb, Bool.false_eq_true, if_false, hbody]
  have hroll : rollbackPrimary d3 fp =
      diskErase (diskWrite d3 fp c) (fp ++ ".original") := by
    unfold rollbackPrimary
    rw [diskExists_of_lookup h3orig]
    simp only [if_true]
    rw [diskCopy_eq _ _ _ _ h3orig]
  rw [hrun, hroll]
  refine ⟨rfl, rfl, ?_, ?_, ?_, ?_⟩
  · rw [lookup_erase_ne _ _ (fp_ne_orig fp), lookup_write_self]
  · rw [lookup_erase_self]
  · rw [lookup_erase_ne _ _ ((orig_ne_tmpenc fp).symm ∘ Eq.symm ∘ Eq.symm)]
    rw [lookup_write_ne _ _ _ (fun h => fp_ne_tmpenc fp h.symm), h3tmp]
  · intro q hq1 hq2 hq3
    rw [lookup_erase_ne _ _ hq2, lookup_write_ne _ _ _ hq1, hd3,
        lookup_write_ne _ _ _ hq1, lookup_erase_ne _ _ hq3, hd2,
        lookup_write_ne _ _ _ hq3, hd1, lookup_write_ne _ _ _ hq2]

-- ## Decrypt direction: per-document characterizations

theorem decryptPrimaryDisk_fp (d : Disk) (fp : String) (c : Content) :
    diskLookup (decryptPrimaryDisk d fp c) fp = some c := by
  unfold decryptPrimaryDisk
  simp only
  have h1 : diskLookup (diskWrite d (fp ++ ".tmp.dec") c)
      (fp ++ ".tmp.dec") = some c := lookup_write_self _ _ _
  rw [diskRename_eq _ _ _ _ h1]
  by_cases hb : diskExists (diskWrite
      (diskErase (diskWrite d (fp ++ ".tmp.dec") c) (fp ++ ".tmp.dec")) fp c)
      (fp ++ ".original")
  · rw [hb]
    simp only [if_true]
    rw [lookup_erase_ne _ _ (fp_ne_orig fp), lookup_write_self]
  · rw [Bool.not_eq_true] at hb
    rw [hb]
    simp only [Bool.false_eq_true, if_false]
    rw [lookup_write_self]

theorem decryptPrimaryDisk_tmp (d : Disk) (fp : String) (c : Content) :
    diskLookup (decryptPrimaryDisk d fp c) (fp ++ ".tmp.dec") = none := by
  unfold decryptPrimaryDisk
  simp only
  have h1 : diskLookup (diskWrite d (fp ++ ".tmp.dec") c)
      (fp ++ ".tmp.dec") = some c := lookup_write_self _ _ _
  rw [diskRename_eq _ _ _ _ h1]
  have h2 : diskLookup (diskWrite
      (diskErase (diskWrite d (fp ++ ".tmp.dec") c) (fp ++ ".tmp.dec")) fp c)
      (fp ++ ".tmp.dec") = none := by
    rw [lookup_write_ne _ _ _ (fun h => fp_ne_tmpdec fp h.symm),
        lookup_erase_self]
  by_cases hb : diskExists (diskWrite
      (diskErase (diskWrite d (fp ++ ".tmp.dec") c) (fp ++ ".tmp.dec")) fp c)
      (fp ++ ".original")
  · rw [hb]
    simp only [if_true]
    rw [lookup_erase_ne _ _ ((orig_ne_tmpdec fp).symm ∘ Eq.symm ∘ Eq.symm), h2]
  · rw [Bool.not_eq_true] at hb
    rw [hb]
    simp only [Bool.false_eq_true, if_false, h2]

theorem decryptPrimaryDisk_orig (d : Disk) (fp : String) (c : Content) :
    diskLookup (decryptPrimaryDisk d fp c) (fp ++ ".original") = none := by
  unfold decryptPrimaryDisk
  simp only
  have h1 : diskLookup (diskWrite d (fp ++ ".tmp.dec") c)
      (fp ++ ".tmp.dec") = some c := lookup_write_self _ _ _
  rw [diskRename_eq _ _ _ _ h1]
  by_cases hb : diskExists (diskWrite
      (diskErase (diskWrite d (fp ++ ".tmp.dec") c) (fp ++ ".tmp.dec")) fp c)
      (fp ++ ".original")
  · rw [hb]
    simp only [if_true]
    rw [lookup_erase_self]
  · rw [Bool.not_eq_true] at hb
    rw [hb]
    simp only [Bool.false_eq_true, if_false]
    rw [diskExists] at hb
    cases hl : diskLookup (diskWrite
        (diskErase (diskWrite d (fp ++ ".tmp.dec") c) (fp ++ ".tmp.dec")) fp c)
        (fp ++ ".original") with
    | none => rfl
    | some x => rw [hl] at hb; cases hb

theorem decryptPrimaryDisk_frame (d : Disk) (fp : String) (c : Content)
    (q : String) (hq1 : q ≠ fp) (hq2 : q ≠ fp ++ ".tmp.dec")
    (hq3 : q ≠ fp ++ ".original") :
    diskLookup (decryptPrimaryDisk d fp c) q = diskLookup d q := by
  unfold decryptPrimaryDisk
  simp only
  have h1 : diskLookup (diskWrite d (fp ++ ".tmp.dec") c)
      (fp ++ ".tmp.dec") = some c := lookup_write_self _ _ _
  rw [diskRename_eq _ _ _ _ h1]
  have h2 : diskLookup (diskWrite
      (diskErase (diskWrite d (fp ++ ".tmp.dec") c) (fp ++ ".tmp.dec")) fp c)
      q = diskLookup d q := by
    rw [lookup_write_ne _ _ _ hq1, lookup_erase_ne _ _ hq2,
        lookup_write_ne _ _ _ hq2]
  by_cases hb : diskExists (diskWrite
      (diskErase (diskWrite d (fp ++ ".tmp.dec") c) (fp ++ ".tmp.dec")) fp c)
      (fp ++ ".original")
  · rw [hb]
    simp only [if_true]
    rw [lookup_erase_ne _ _ hq3, h2]
  · rw [Bool.not_eq_true] at hb
    rw [hb]
    simp only [Bool.false_eq_true, if_false, h2]

theorem decryptTryBody_eq (env : Env) (uid : Nat) (st : SysState)
    (doc : Document) (fp : String) (c : Content)
    (hc : diskLookup st.disk fp = some (.cipher c))
    (hdec : env.decryptErr fp = none) :
    decryptTryBody env uid st doc fp =
      match env.persistErr doc.doc_id with
      | some msg =>
        .error ({ st with disk :=
          (decryptRefs env (decryptPrimaryDisk st.disk fp c)
            doc.doc_reference).1 }, msg)
      | none =>
        .ok { db := dbUpdateDecrypt st.db doc.doc_id
                (decryptRefs env (decryptPrimaryDisk st.disk fp c)
                  doc.doc_reference).2 uid,
              disk := (decryptRefs env (decryptPrimaryDisk st.disk fp c)
                doc.doc_reference).1 } := by
  unfold decryptTryBody decryptPrimaryDisk
  rw [hdec, hc]

theorem decryptOneDoc_success_noRefs (env : Env) (uid : Nat) (st : SysState)
    (doc : Document) (fp : String) (c : Content) (em : EncMeta)
    (hfp : doc.doc_file = some fp) (hne : fp ≠ "")
    (hmeta : doc.encryption_metadata = some em)
    (href : doc.doc_reference = none)
    (hc : diskLookup st.disk fp = some (.cipher c))
    (hdec : env.decryptErr fp = none)
    (hper : env.persistErr doc.doc_id = none) :
    (decryptOneDoc env uid st doc).2 = .success ∧
    (decryptOneDoc env uid st doc).1.db =
      dbUpdateDecrypt st.db doc.doc_id none uid ∧
    diskLookup (decryptOneDoc env uid st doc).1.disk fp = some c ∧
    diskLookup (decryptOneDoc env uid st doc).1.disk (fp ++ ".original") =
      none ∧
    diskLookup (decryptOneDoc env uid st doc).1.disk (fp ++ ".tmp.dec") =
      none ∧
    ∀ q, q ≠ fp → q ≠ fp ++ ".original" → q ≠ fp ++ ".tmp.dec" →
      diskLookup (decryptOneDoc env uid st doc).1.disk q =
        diskLookup st.disk q := by
  have hb : (fp == "") = false := by simp [hne]
  have hbody := decryptTryBody_eq env uid st doc fp c hc hdec
  rw [hper] at hbody
  rw [href] at hbody
  simp only [decryptRefs] at hbody
  have hrun : decryptOneDoc env uid st doc =
      ({ db := dbUpdateDecrypt st.db doc.doc_id none uid,
         disk := decryptPrimaryDisk st.disk fp c }, .success) := by
    simp only [decryptOneDoc, hfp, hmeta, hb, Bool.false_eq_true, if_false,
      hbody]
  rw [hrun]
  exact ⟨rfl, rfl, decryptPrimaryDisk_fp _ _ _,
    decryptPrimaryDisk_orig _ _ _, decryptPrimaryDisk_tmp _ _ _,
    fun q h1 h2 h3 => decryptPrimaryDisk_frame _ _ _ _ h1 h3 h2⟩

theorem decryptOneDoc_persistFail_noRefs (env : Env) (uid : Nat)
    (st : SysState) (doc : Document) (fp : String) (c : Content)
    (em : EncMeta) (msg : String)
    (hfp : doc.doc_file = some fp) (hne : fp ≠ "")
    (hmeta : doc.encryption_metadata = some em)
    (href : doc.doc_reference = none)
    (hc : diskLookup st.disk fp = some (.cipher c))
    (hdec : env.decryptErr fp = none)
    (hper : env.persistErr doc.doc_id = some msg) :
    (decryptOneDoc env uid st doc).2 = .failed msg ∧
    (decryptOneDoc env uid st doc).1.db = st.db ∧
    diskLookup (decryptOneDoc env uid st doc).1.disk fp = some c ∧
    diskLookup (decryptOneDoc env uid st doc).1.disk (fp ++ ".original") =
      none ∧
    ∀ q, q ≠ fp → q ≠ fp ++ ".original" → q ≠ fp ++ ".tmp.dec" →
      diskLookup (decryptOneDoc env uid st doc).1.disk q =
        diskLookup st.disk q := by
  have hb : (fp == "") = false := by simp [hne]
  have hbody := decryptTryBody_eq env uid st doc fp c hc hdec
  rw [hper] at hbody
  rw [href] at hbody
  simp only [decryptRefs] at hbody
  have hrun : decryptOneDoc env uid st doc =
      ({ st with disk := decryptPrimaryDisk st.disk fp c }, .failed msg) := by
    simp only [decryptOneDoc, hfp, hmeta, hb, Bool.false_eq_true, if_false,
      hbody]
  rw [hrun]
  exact ⟨rfl, rfl, decryptPrimaryDisk_fp _ _ _,
    decryptPrimaryDisk_orig _ _ _,
    fun q h1 h2 h3 => decryptPrimaryDisk_frame _ _ _ _ h1 h3 h2⟩

-- ## Outcome/guard lemmas (for the counting invariant)

theorem encryptOneDoc_skipped_iff (env : Env) (uid : Nat) (st : SysState)
    (doc : Document) :
    (encryptOneDoc env uid st doc).2 = .skipped ↔
      truthyFile doc.doc_file = false := by
  unfold encryptOneDoc
  cases hfp : doc.doc_file with
  | none => simp [truthyFile]
  | some fp =>
    by_cases hb : (fp == "") = true
    · simp only [hb, if_true]
      simp [truthyFile, hb]
    · rw [Bool.not_eq_true] at hb
      simp only [hb, Bool.false_eq_true, if_false]
      cases hbody : encryptTryBody env uid st doc fp with
      | ok st1 => simp [truthyFile, hb]
      | error e =>
        rcases e with ⟨st1, msg⟩
        simp [truthyFile, hb]

theorem decryptOneDoc_skipped_iff (env : Env) (uid : Nat) (st : SysState)
    (doc : Document) :
    (decryptOneDoc env uid st doc).2 = .skipped ↔
      decryptDocGuard doc = false := by
  unfold decryptOneDoc decryptDocGuard
  cases hfp : doc.doc_file with
  | none => simp [truthyFile]
  | some fp =>
    cases hm : doc.encryption_metadata with
    | none => simp [truthyFile]
    | some em =>
      by_cases hb : (fp == "") = true
      · simp only [hb, if_true]
        simp [truthyFile, hb]
      · rw [Bool.not_eq_true] at hb
        simp only [hb, Bool.false_eq_true, if_false]
        cases hbody : decryptTryBody env uid st doc fp with
        | ok st1 => simp [truthyFile, hb]
        | error e =>
          rcases e with ⟨st1, msg⟩
          simp [truthyFile, hb]

-- ## Counting (C1)

theorem encryptLoop_count (env : Env) (uid : Nat) :
    ∀ (docs : List Document) (st : SysState),
      (encryptLoop env uid st docs).2.1.length +
        (encryptLoop env uid st docs).2.2.length +
        (docs.filter (fun d => !truthyFile d.doc_file)).length =
      docs.length := by
  intro docs
  induction docs with
  | nil => intro st; simp [encryptLoop]
  | cons d ds ih =>
    intro st
    rcases h : encryptOneDoc env uid st d with ⟨st1, o⟩
    have hsk := encryptOneDoc_skipped_iff env uid st d
    rw [h] at hsk
    cases o with
    | success =>
      have ht : truthyFile d.doc_file = true := by
        cases htf : truthyFile d.doc_file
        · exact absurd (hsk.mpr htf) (by simp)
        · rfl
      simp only [encryptLoop, h, List.filter_cons, ht, Bool.not_true,
        Bool.false_eq_true, if_false, List.length_cons]
      have := ih st1
      omega
    | failed e =>
      have ht : truthyFile d.doc_file = true := by
        cases htf : truthyFile d.doc_file
        · exact absurd (hsk.mpr htf) (by simp)
        · rfl
      simp only [encryptLoop, h, List.filter_cons, ht, Bool.not_true,
        Bool.false_eq_true, if_false, List.length_cons]
      have := ih st1
      omega
    | skipped =>
      have ht : truthyFile d.doc_file = false := hsk.mp rfl
      simp only [encryptLoop, h, List.filter_cons, ht, Bool.not_false,
        if_true, List.length_cons]
      have := ih st1
      omega

theorem decryptLoop_count (env : Env) (uid : Nat) :
    ∀ (docs : List Document) (st : SysState),
      (decryptLoop env uid st docs).2.1.length +
        (decryptLoop env uid st docs).2.2.length +
        (docs.filter (fun d => !decryptDocGuard d)).length =
      docs.length := by
  intro docs
  induction docs with
  | nil => intro st; simp [decryptLoop]
  | cons d ds ih =>
    intro st
    rcases h : decryptOneDoc env uid st d with ⟨st1, o⟩
    have hsk := decryptOneDoc_skipped_iff env uid st d
    rw [h] at hsk
    cases o with
    | success =>
      have ht : decryptDocGuard d = true := by
        cases htf : decryptDocGuard d
        · exact absurd (hsk.mpr htf) (by simp)
        · rfl
      simp only [decryptLoop, h, List.filter_cons, ht, Bool.not_true,
        Bool.false_eq_true, if_false, List.length_cons]
      have := ih st1
      omega
    | failed e =>
      have ht : decryptDocGuard d = true := by
        cases htf : decryptDocGuard d
        · exact absurd (hsk.mpr htf) (by simp)
        · rfl
      simp only [decryptLoop, h, List.filter_cons, ht, Bool.not_true,
        Bool.false_eq_true, if_false, List.length_cons]
      have := ih st1
      omega
    | skipped =>
      have ht : decryptDocGuard d = false := hsk.mp rfl
      simp only [decryptLoop, h, List.filter_cons, ht, Bool.not_false,
        if_true, List.length_cons]
      have := ih st1
      omega

/-- C1 (counterexample): the claimed invariant
`totalCount = success.length + failed.length` fails for
`decryptDocumentFiles` on a case whose single candidate document has
`is_encrypted = TRUE` but a `NULL` `doc_file`: the document is counted in
`totalCount` yet lands in neither bucket. -/
theorem claim_C1_counterexample :
    ¬ ((decryptDocumentFiles envOk 7 1 stC1).1.totalCount =
        (decryptDocumentFiles envOk 7 1 stC1).1.success.length +
        (decryptDocumentFiles envOk 7 1 stC1).1.failed.length) := by
  decide

/-- C1 (amended): for both orchestrators,
`totalCount = success.length + failed.length + (number of candidates
silently skipped by the truthiness guard)`; in the encrypt direction the
skipped candidates are those whose `doc_file` is the empty string, in the
decrypt direction those with a null/empty `doc_file` or a null
`encryption_metadata`.  Skipped candidates appear in neither bucket. -/
theorem claim_C1_amended (env : Env) (caseId uid : Nat) (st : SysState) :
    ((encryptDocumentFiles env caseId uid st).1.totalCount =
      (encryptDocumentFiles env caseId uid st).1.success.length +
      (encryptDocumentFiles env caseId uid st).1.failed.length +
      ((st.db.filter (encryptCandidatePred caseId)).filter
        (fun d => !truthyFile d.doc_file)).length) ∧
    ((decryptDocumentFiles env caseId uid st).1.totalCount =
      (decryptDocumentFiles env caseId uid st).1.success.length +
      (decryptDocumentFiles env caseId uid st).1.failed.length +
      ((st.db.filter (decryptCandidatePred caseId)).filter
        (fun d => !decryptDocGuard d)).length) := by
  constructor
  · unfold encryptDocumentFiles
    by_cases hE : (st.db.filter (encryptCandidatePred caseId)).isEmpty = true
    · have hnil : st.db.filter (encryptCandidatePred caseId) = [] :=
        List.isEmpty_iff.mp hE
      simp [hnil]
    · simp only [hE, Bool.false_eq_true, if_false]
      have := encryptLoop_count env uid
        (st.db.filter (encryptCandidatePred caseId)) st
      omega
  · unfold decryptDocumentFiles
    by_cases hE : (st.db.filter (decryptCandidatePred caseId)).isEmpty = true
    · have hnil : st.db.filter (decryptCandidatePred caseId) = [] :=
        List.isEmpty_iff.mp hE
      simp [hnil]
    · simp only [hE, Bool.false_eq_true, if_false]
      have := decryptLoop_count env uid
        (st.db.filter (decryptCandidatePred caseId)) st
      omega

-- ## Singleton-batch helpers

theorem encryptLoop_singleton (env : Env) (uid : Nat) (st : SysState)
    (doc : Document) :
    encryptLoop env uid st [doc] =
      ((encryptOneDoc env uid st doc).1,
        match (encryptOneDoc env uid st doc).2 with
        | .success => ([doc.doc_id], [])
        | .failed e => ([], [(doc.doc_id, e)])
        | .skipped => ([], [])) := by
  rcases h : encryptOneDoc env uid st doc with ⟨st1, o⟩
  cases o <;> simp [encryptLoop, h]

theorem decryptLoop_singleton (env : Env) (uid : Nat) (st : SysState)
    (doc : Document) :
    decryptLoop env uid st [doc] =
      ((decryptOneDoc env uid st doc).1,
        match (decryptOneDoc env uid st doc).2 with
        | .success => ([doc.doc_id], [])
        | .failed e => ([], [(doc.doc_id, e)])
        | .skipped => ([], [])) := by
  rcases h : decryptOneDoc env uid st doc with ⟨st1, o⟩
  cases o <;> simp [decryptLoop, h]

theorem encryptDocumentFiles_singleton (env : Env) (caseId uid : Nat)
    (st : SysState) (doc : Document)
    (hdb : st.db = [doc])
    (hpred : encryptCandidatePred caseId doc = true) :
    encryptDocumentFiles env caseId uid st =
      ({ success := (encryptLoop env uid st [doc]).2.1,
         failed := (encryptLoop env uid st [doc]).2.2,
         totalCount := 1 }, (encryptLoop env uid st [doc]).1) := by
  have hfilter : st.db.filter (encryptCandidatePred caseId) = [doc] := by
    rw [hdb]
    simp [List.filter_cons, hpred]
  unfold encryptDocumentFiles
  rw [hfilter]
  simp [List.isEmpty]

theorem decryptDocumentFiles_singleton (env : Env) (caseId uid : Nat)
    (st : SysState) (doc : Document)
    (hdb : st.db = [doc])
    (hpred : decryptCandidatePred caseId doc = true) :
    decryptDocumentFiles env caseId uid st =
      ({ success := (decryptLoop env uid st [doc]).2.1,
         failed := (decryptLoop env uid st [doc]).2.2,
         totalCount := 1 }, (decryptLoop env uid st [doc]).1) := by
  have hfilter : st.db.filter (decryptCandidatePred caseId) = [doc] := by
    rw [hdb]
    simp [List.filter_cons, hpred]
  unfold decryptDocumentFiles
  rw [hfilter]
  simp [List.isEmpty]

/-- C3 (counterexample): in the encrypt direction, when the filesystem
transform succeeds but the metadata persist fails, the file is NOT left in
its new encrypted state: the per-document catch restores it from the
backup, so it ends as the original plaintext. -/
theorem claim_C3_counterexample :
    (encryptDocumentFiles envPersistFail 7 9 st0).1.failed =
      [(1, "db error")] ∧
    diskLookup (encryptDocumentFiles envPersistFail 7 9 st0).2.disk
      "u/f.pdf" = some (.plain 0) ∧
    diskLookup (encryptDocumentFiles envPersistFail 7 9 st0).2.disk
      "u/f.pdf" ≠ some (.cipher (.plain 0)) := by
  decide

/-- C3 (amended): a document whose filesystem transform succeeds but whose
metadata persist fails is reported in the failure list in both directions,
and the database row is left unchanged; in the decrypt direction the file
stays in its new decrypted state, but in the encrypt direction the
per-document rollback restores the primary file to its original plaintext
and removes the backup. -/
theorem claim_C3_amended :
    (∀ (env : Env) (uid : Nat) (st : SysState) (doc : Document)
       (fp : String) (c : Content) (m : Meta) (msg : String),
      doc.doc_file = some fp → fp ≠ "" → doc.doc_reference = none →
      diskLookup st.disk fp = some c →
      env.encryptResult fp = .ok m →
      env.persistErr doc.doc_id = some msg →
      (encryptOneDoc env uid st doc).2 = .failed msg ∧
      (encryptOneDoc env uid st doc).1.db = st.db ∧
      diskLookup (encryptOneDoc env uid st doc).1.disk fp = some c ∧
      diskLookup (encryptOneDoc env uid st doc).1.disk
        (fp ++ ".original") = none) ∧
    (∀ (env : Env) (uid : Nat) (st : SysState) (doc : Document)
       (fp : String) (c : Content) (em : EncMeta) (msg : String),
      doc.doc_file = some fp → fp ≠ "" →
      doc.encryption_metadata = some em → doc.doc_reference = none →
      diskLookup st.disk fp = some (.cipher c) →
      env.decryptErr fp = none →
      env.persistErr doc.doc_id = some msg →
      (decryptOneDoc env uid st doc).2 = .failed msg ∧
      (decryptOneDoc env uid st doc).1.db = st.db ∧
      diskLookup (decryptOneDoc env uid st doc).1.disk fp = some c) := by
  constructor
  · intro env uid st doc fp c m msg hfp hne href hc henc hper
    obtain ⟨h1, h2, h3, h4, _, _⟩ :=
      encryptOneDoc_persistFail_noRefs env uid st doc fp c m msg hfp hne
        href hc henc hper
    exact ⟨h1, h2, h3, h4⟩
  · intro env uid st doc fp c em msg hfp hne hmeta href hc hdec hper
    obtain ⟨h1, h2, h3, _, _⟩ :=
      decryptOneDoc_persistFail_noRefs env uid st doc fp c em msg hfp hne
        hmeta href hc hdec hper
    exact ⟨h1, h2, h3⟩

/-- C3 (witness): the amended theorem applied at concrete inputs — an
encrypt run and a decrypt run, both with a failing persist. -/
theorem claim_C3_witness :
    ((encryptOneDoc envPersistFail 9 st0 doc0).2 = .failed "db error" ∧
      (encryptOneDoc envPersistFail 9 st0 doc0).1.db = st0.db ∧
      diskLookup (encryptOneDoc envPersistFail 9 st0 doc0).1.disk
        "u/f.pdf" = some (.plain 0) ∧
      diskLookup (encryptOneDoc envPersistFail 9 st0 doc0).1.disk
        "u/f.pdf.original" = none) ∧
    ((decryptOneDoc envPersistFail 9 stEnc docEnc).2 = .failed "db error" ∧
      (decryptOneDoc envPersistFail 9 stEnc docEnc).1.db = stEnc.db ∧
      diskLookup (decryptOneDoc envPersistFail 9 stEnc docEnc).1.disk
        "u/g.pdf" = some (.plain 5)) := by
  constructor
  · have h := claim_C3_amended.1 envPersistFail 9 st0 doc0 "u/f.pdf"
      (.plain 0) meta0 "db error" rfl (by decide) rfl (by decide) rfl rfl
    exact h
  · have h := claim_C3_amended.2 envPersistFail 9 stEnc docEnc "u/g.pdf"
      (.plain 5) encMeta0 "db error" rfl (by decide) rfl rfl (by decide)
      rfl rfl
    exact h

/-- C4 (confirmed): on a per-document failure in the encrypt direction —
whether the primary-file transform (`encryptFile`) or the metadata persist
fails — the orchestrator records `{docId, error}` in `failed` and the
rollback restores the primary file from its backup (original content back
in place, backup removed); in the decrypt direction a persist failure is
recorded in `failed` but no re-encrypting rollback is attempted: the file
stays decrypted. -/
theorem claim_C4 :
    (∀ (env : Env) (caseId uid : Nat) (st : SysState) (doc : Document)
       (fp : String) (c : Content) (msg : String),
      st.db = [doc] → encryptCandidatePred caseId doc = true →
      doc.doc_file = some fp → fp ≠ "" →
      diskLookup st.disk fp = some c →
      env.encryptResult fp = .error msg →
      (encryptDocumentFiles env caseId uid st).1.failed =
        [(doc.doc_id, msg)] ∧
      (encryptDocumentFiles env caseId uid st).1.success = [] ∧
      diskLookup (encryptDocumentFiles env caseId uid st).2.disk fp =
        some c ∧
      diskLookup (encryptDocumentFiles env caseId uid st).2.disk
        (fp ++ ".original") = none) ∧
    (∀ (env : Env) (caseId uid : Nat) (st : SysState) (doc : Document)
       (fp : String) (c : Content) (m : Meta) (msg : String),
      st.db = [doc] → encryptCandidatePred caseId doc = true →
      doc.doc_file = some fp → fp ≠ "" → doc.doc_reference = none →
      diskLookup st.disk fp = some c →
      env.encryptResult fp = .ok m →
      env.persistErr doc.doc_id = some msg →
      (encryptDocumentFiles env caseId uid st).1.failed =
        [(doc.doc_id, msg)] ∧
      (encryptDocumentFiles env caseId uid st).1.success = [] ∧
      diskLookup (encryptDocumentFiles env caseId uid st).2.disk fp =
        some c ∧
      diskLookup (encryptDocumentFiles env caseId uid st).2.disk
        (fp ++ ".original") = none) ∧
    (∀ (env : Env) (caseId uid : Nat) (st : SysState) (doc : Document)
       (fp : String) (c : Content) (em : EncMeta) (msg : String),
      st.db = [doc] → decryptCandidatePred caseId doc = true →
      doc.doc_file = some fp → fp ≠ "" →
      doc.encryption_metadata = some em → doc.doc_reference = none →
      diskLookup st.disk fp = some (.cipher c) →
      env.decryptErr fp = none →
      env.persistErr doc.doc_id = some msg →
      (decryptDocumentFiles env caseId uid st).1.failed =
        [(doc.doc_id, msg)] ∧
      (decryptDocumentFiles env caseId uid st).1.success = [] ∧
      diskLookup (decryptDocumentFiles env caseId uid st).2.disk fp =
        some c) := by
  refine ⟨?_, ?_, ?_⟩
  · intro env caseId uid st doc fp c msg hdb hpred hfp hne hc henc
    obtain ⟨h1, _, h3, h4, _⟩ :=
      encryptOneDoc_encFail env uid st doc fp c msg hfp hne hc henc
    rw [encryptDocumentFiles_singleton env caseId uid st doc hdb hpred,
        encryptLoop_singleton, h1]
    exact ⟨rfl, rfl, h3, h4⟩
  · intro env caseId uid st doc fp c m msg hdb hpred hfp hne href hc henc
      hper
    obtain ⟨h1, _, h3, h4, _, _⟩ :=
      encryptOneDoc_persistFail_noRefs env uid st doc fp c m msg hfp hne
        href hc henc hper
    rw [encryptDocumentFiles_singleton env caseId uid st doc hdb hpred,
        encryptLoop_singleton, h1]
    exact ⟨rfl, rfl, h3, h4⟩
  · intro env caseId uid st doc fp c em msg hdb hpred hfp hne hmeta href
      hc hdec hper
    obtain ⟨h1, _, h3, _, _⟩ :=
      decryptOneDoc_persistFail_noRefs env uid st doc fp c em msg hfp hne
        hmeta href hc hdec hper
    rw [decryptDocumentFiles_singleton env caseId uid st doc hdb hpred,
        decryptLoop_singleton, h1]
    exact ⟨rfl, rfl, h3⟩

/-- C4 (witness): the theorem applied at concrete inputs — a failing
`encryptFile`, a failing encrypt-side persist, and a failing decrypt-side
persist. -/
theorem claim_C4_witness :
    ((encryptDocumentFiles envEncFail 7 9 st0).1.failed =
      [(1, "enc error")] ∧
     diskLookup (encryptDocumentFiles envEncFail 7 9 st0).2.disk
       "u/f.pdf.original" = none) ∧
    ((encryptDocumentFiles envPersistFail 7 9 st0).1.failed =
      [(1, "db error")] ∧
     diskLookup (encryptDocumentFiles envPersistFail 7 9 st0).2.disk
       "u/f.pdf" = some (.plain 0)) ∧
    ((decryptDocumentFiles envPersistFail 7 9 stEnc).1.failed =
      [(3, "db error")] ∧
     diskLookup (decryptDocumentFiles envPersistFail 7 9 stEnc).2.disk
       "u/g.pdf" = some (.plain 5)) := by
  refine ⟨⟨?_, ?_⟩, ⟨?_, ?_⟩, ⟨?_, ?_⟩⟩
  · exact (claim_C4.1 envEncFail 7 9 st0 doc0 "u/f.pdf" (.plain 0)
      "enc error" rfl (by decide) rfl (by decide) (by decide) rfl).1
  · exact (claim_C4.1 envEncFail 7 9 st0 doc0 "u/f.pdf" (.plain 0)
      "enc error" rfl (by decide) rfl (by decide) (by decide) rfl).2.2.2
  · exact (claim_C4.2.1 envPersistFail 7 9 st0 doc0 "u/f.pdf" (.plain 0)
      meta0 "db error" rfl (by decide) rfl (by decide) rfl (by decide)
      rfl rfl).1
  · exact (claim_C4.2.1 envPersistFail 7 9 st0 doc0 "u/f.pdf" (.plain 0)
      meta0 "db error" rfl (by decide) rfl (by decide) rfl (by decide)
      rfl rfl).2.2.1
  · exact (claim_C4.2.2 envPersistFail 7 9 stEnc docEnc "u/g.pdf"
      (.plain 5) encMeta0 "db error" rfl (by decide) rfl (by decide) rfl
      rfl (by decide) rfl rfl).1
  · exact (claim_C4.2.2 envPersistFail 7 9 stEnc docEnc "u/g.pdf"
      (.plain 5) encMeta0 "db error" rfl (by decide) rfl (by decide) rfl
      rfl (by decide) rfl rfl).2.2

/-- C5 (counterexample): after a fully successful encrypt batch the primary
backup file (`.original`) is still on disk when the call returns — the
encrypt direction never deletes it after the metadata store confirms the
step, so the backup outlives the transform call in the normal success
path. -/
theorem claim_C5_counterexample :
    (encryptDocumentFiles envOk 7 9 st0).1.success = [1] ∧
    diskExists (encryptDocumentFiles envOk 7 9 st0).2.disk
      "u/f.pdf.original" = true := by
  decide

/-- C5 (amended): backup lifetime as implemented — (a) for a successful
encrypt transform the backup is kept past the end of the batch call (it is
recorded in the stored metadata and only removed by a later decrypt or a
rollback); (b) for a successful decrypt transform the backup is deleted
immediately after the rename; (c) after a failed encrypt transform the
rollback removes the backup. -/
theorem claim_C5_amended :
    (∀ (env : Env) (caseId uid : Nat) (st : SysState) (doc : Document)
       (fp : String) (c : Content) (m : Meta),
      st.db = [doc] → encryptCandidatePred caseId doc = true →
      doc.doc_file = some fp → fp ≠ "" → doc.doc_reference = none →
      diskLookup st.disk fp = some c →
      env.encryptResult fp = .ok m →
      env.persistErr doc.doc_id = none →
      (encryptDocumentFiles env caseId uid st).1.success = [doc.doc_id] ∧
      diskLookup (encryptDocumentFiles env caseId uid st).2.disk
        (fp ++ ".original") = some c) ∧
    (∀ (env : Env) (caseId uid : Nat) (st : SysState) (doc : Document)
       (fp : String) (c : Content) (em : EncMeta),
      st.db = [doc] → decryptCandidatePred caseId doc = true →
      doc.doc_file = some fp → fp ≠ "" →
      doc.encryption_metadata = some em → doc.doc_reference = none →
      diskLookup st.disk fp = some (.cipher c) →
      env.decryptErr fp = none →
      env.persistErr doc.doc_id = none →
      (decryptDocumentFiles env caseId uid st).1.success = [doc.doc_id] ∧
      diskLookup (decryptDocumentFiles env caseId uid st).2.disk
        (fp ++ ".original") = none) ∧
    (∀ (env : Env) (caseId uid : Nat) (st : SysState) (doc : Document)
       (fp : String) (c : Content) (msg : String),
      st.db = [doc] → encryptCandidatePred caseId doc = true →
      doc.doc_file = some fp → fp ≠ "" →
      diskLookup st.disk fp = some c →
      env.encryptResult fp = .error msg →
      (encryptDocumentFiles env caseId uid st).1.failed =
        [(doc.doc_id, msg)] ∧
      diskLookup (encryptDocumentFiles env caseId uid st).2.disk
        (fp ++ ".original") = none) := by
  refine ⟨?_, ?_, ?_⟩
  · intro env caseId uid st doc fp c m hdb hpred hfp hne href hc henc hper
    obtain ⟨h1, _, _, h4, _, _⟩ :=
      encryptOneDoc_success_noRefs env uid st doc fp c m hfp hne href hc
        henc hper
    rw [encryptDocumentFiles_singleton env caseId uid st doc hdb hpred,
        encryptLoop_singleton, h1]
    exact ⟨rfl, h4⟩
  · intro env caseId uid st doc fp c em hdb hpred hfp hne hmeta href hc
      hdec hper
    obtain ⟨h1, _, _, h4, _, _⟩ :=
      decryptOneDoc_success_noRefs env uid st doc fp c em hfp hne hmeta
        href hc hdec hper
    rw [decryptDocumentFiles_singleton env caseId uid st doc hdb hpred,
        decryptLoop_singleton, h1]
    exact ⟨rfl, h4⟩
  · intro env caseId uid st doc fp c msg hdb hpred hfp hne hc henc
    obtain ⟨h1, _, _, h4, _⟩ :=
      encryptOneDoc_encFail env uid st doc fp c msg hfp hne hc henc
    rw [encryptDocumentFiles_singleton env caseId uid st doc hdb hpred,
        encryptLoop_singleton, h1]
    exact ⟨rfl, h4⟩

/-- C5 (witness): the amended theorem applied at concrete inputs: a
successful encrypt, a successful decrypt, and a failed encrypt. -/
theorem claim_C5_witness :
    ((encryptDocumentFiles envOk 7 9 st0).1.success = [1] ∧
     diskLookup (encryptDocumentFiles envOk 7 9 st0).2.disk
       "u/f.pdf.original" = some (.plain 0)) ∧
    ((decryptDocumentFiles envOk 7 9 stEnc).1.success = [3] ∧
     diskLookup (decryptDocumentFiles envOk 7 9 stEnc).2.disk
       "u/g.pdf.original" = none) ∧
    ((encryptDocumentFiles envEncFail 7 9 st0).1.failed =
      [(1, "enc error")] ∧
     diskLookup (encryptDocumentFiles envEncFail 7 9 st0).2.disk
       "u/f.pdf.original" = none) := by
  refine ⟨?_, ?_, ?_⟩
  · exact claim_C5_amended.1 envOk 7 9 st0 doc0 "u/f.pdf" (.plain 0)
      meta0 rfl (by decide) rfl (by decide) rfl (by decide) rfl rfl
  · exact claim_C5_amended.2.1 envOk 7 9 stEnc docEnc "u/g.pdf" (.plain 5)
      encMeta0 rfl (by decide) rfl (by decide) rfl rfl (by decide) rfl rfl
  · exact claim_C5_amended.2.2 envEncFail 7 9 st0 doc0 "u/f.pdf"
      (.plain 0) "enc error" rfl (by decide) rfl (by decide) (by decide)
      rfl

/-- C7 (counterexample): a 64-character key of `z`s is not a valid
64-hex-character master key, yet the startup validation accepts it — the
code checks only the length, never hex validity, so "any key that is not
exactly 64 hex characters is fatal" is false. -/
theorem claim_C7_counterexample :
    validateMasterKey (some zKey) = true ∧ specValidMasterKey zKey = false := by
  decide

/-- C7 (amended): a missing master key is fatal at startup, a key whose
length is not 64 is fatal, and any 64-character key — hex validity is not
checked — lets startup proceed (in particular any 64-valid-hex-character
key does). -/
theorem claim_C7_amended :
    validateMasterKey none = false ∧
    (∀ k : String, validateMasterKey (some k) = true ↔ k.length = 64) ∧
    (∀ k : String, specValidMasterKey k = true →
      validateMasterKey (some k) = true) := by
  refine ⟨rfl, ?_, ?_⟩
  · intro k
    unfold validateMasterKey
    constructor
    · intro h
      have := (Bool.and_eq_true _ _).mp h
      simpa using this.2
    · intro h
      have hne : k ≠ "" := by
        intro he
        rw [he] at h
        simp at h
      simp [hne, h]
  · intro k h
    unfold specValidMasterKey at h
    have := (Bool.and_eq_true _ _).mp h
    have hlen : k.length = 64 := by simpa using this.1
    have hne : k ≠ "" := by
      intro he
      rw [he] at hlen
      simp at hlen
    unfold validateMasterKey
    simp [hne, hlen]

/-- C7 (witness): the amended theorem applied at concrete keys — the
missing case, a 63-character key rejected, and the 64-hex key accepted. -/
theorem claim_C7_witness :
    validateMasterKey (some hexKey) = true ∧
    validateMasterKey (some (String.mk (List.replicate 63 'a'))) = false := by
  constructor
  · exact (claim_C7_amended.2.1 hexKey).mpr (by decide)
  · have h := claim_C7_amended.2.1 (String.mk (List.replicate 63 'a'))
    cases hv : validateMasterKey (some (String.mk (List.replicate 63 'a')))
    · rfl
    · exact absurd (h.mp hv) (by decide)

-- ## Batch isolation (C2)

theorem encryptLoop_allOk (env : Env) (uid : Nat)
    (henv : ∀ p, ∃ m, env.encryptResult p = .ok m)
    (hper : ∀ n, env.persistErr n = none) :
    ∀ (docs : List Document) (st : SysState),
      (∀ d ∈ docs, ∃ fp, d.doc_file = some fp ∧ fp ≠ "") →
      (∀ d ∈ docs, d.doc_reference = none) →
      List.Pairwise encPathSep docs →
      (∀ d ∈ docs, diskExists st.disk (d.doc_file.getD "") = true) →
      (encryptLoop env uid st docs).2.1 = docs.map Document.doc_id ∧
      (encryptLoop env uid st docs).2.2 = [] := by
  intro docs
  induction docs with
  | nil => intro st _ _ _ _; simp [encryptLoop]
  | cons d ds ih =>
    intro st hfile hrefs hpw hex
    obtain ⟨fp, hfp, hne⟩ := hfile d (List.mem_cons_self d ds)
    have hgd : d.doc_file.getD "" = fp := by rw [hfp]; rfl
    have hexd : diskExists st.disk fp = true := by
      rw [← hgd]; exact hex d (List.mem_cons_self d ds)
    obtain ⟨c, hc⟩ := (diskExists_iff _ _).mp hexd
    obtain ⟨m, hm⟩ := henv fp
    obtain ⟨h1, _, _, _, _, hframe⟩ :=
      encryptOneDoc_success_noRefs env uid st d fp c m hfp hne
        (hrefs d (List.mem_cons_self d ds)) hc hm (hper d.doc_id)
    rcases hstep : encryptOneDoc env uid st d with ⟨st1, o⟩
    rw [hstep] at h1 hframe
    subst h1
    have hpwtail := (List.pairwise_cons.mp hpw).2
    have hsep := (List.pairwise_cons.mp hpw).1
    have hextail : ∀ d' ∈ ds, diskExists st1.disk (d'.doc_file.getD "") =
        true := by
      intro d' hd'
      obtain ⟨hs1, hs2, hs3⟩ := hsep d' hd'
      rw [hgd] at hs1 hs2 hs3
      rw [diskExists, hframe _ hs1 hs2 hs3, ← diskExists]
      exact hex d' (List.mem_cons_of_mem d hd')
    have := ih st1 (fun d' hd' => hfile d' (List.mem_cons_of_mem d hd'))
      (fun d' hd' => hrefs d' (List.mem_cons_of_mem d hd')) hpwtail hextail
    simp only [encryptLoop, hstep]
    simp [this.1, this.2]

theorem encryptLoop_oneMissing (env : Env) (uid : Nat)
    (henv : ∀ p, ∃ m, env.encryptResult p = .ok m)
    (hper : ∀ n, env.persistErr n = none) :
    ∀ (docs : List Document) (st : SysState) (k : Document),
      k ∈ docs → docs.Nodup →
      (∀ d ∈ docs, ∃ fp, d.doc_file = some fp ∧ fp ≠ "") →
      (∀ d ∈ docs, d.doc_reference = none) →
      List.Pairwise encPathSep docs →
      (∀ d ∈ docs, d ≠ k → diskExists st.disk (d.doc_file.getD "") = true) →
      diskLookup st.disk (k.doc_file.getD "") = none →
      (encryptLoop env uid st docs).2.1.length = docs.length - 1 ∧
      (encryptLoop env uid st docs).2.2 =
        [(k.doc_id, "File not found: " ++ k.doc_file.getD "")] := by
  intro docs
  induction docs with
  | nil => intro st k hk; cases hk
  | cons d ds ih =>
    intro st k hk hnd hfile hrefs hpw hex hmiss
    obtain ⟨fp, hfp, hne⟩ := hfile d (List.mem_cons_self d ds)
    have hgd : d.doc_file.getD "" = fp := by rw [hfp]; rfl
    have hpwtail := (List.pairwise_cons.mp hpw).2
    have hsep := (List.pairwise_cons.mp hpw).1
    by_cases hdk : d = k
    · subst hdk
      have hmissd : diskLookup st.disk fp = none := by rw [← hgd]; exact hmiss
      obtain ⟨h1, _, hframe, _⟩ :=
        encryptOneDoc_notFound env uid st d fp hfp hne hmissd
      rcases hstep : encryptOneDoc env uid st d with ⟨st1, o⟩
      rw [hstep] at h1 hframe
      subst h1
      have hknotin : d ∉ ds := (List.nodup_cons.mp hnd).1
      have hextail : ∀ d' ∈ ds,
          diskExists st1.disk (d'.doc_file.getD "") = true := by
        intro d' hd'
        obtain ⟨hs1, hs2, _⟩ := hsep d' hd'
        rw [hgd] at hs1 hs2
        rw [diskExists, hframe _ hs1 hs2, ← diskExists]
        refine hex d' (List.mem_cons_of_mem d hd') ?_
        intro he
        exact hknotin (he ▸ hd')
      have hall := encryptLoop_allOk env uid henv hper ds st1
        (fun d' hd' => hfile d' (List.mem_cons_of_mem d hd'))
        (fun d' hd' => hrefs d' (List.mem_cons_of_mem d hd'))
        hpwtail hextail
      simp only [encryptLoop, hstep]
      simp [hall.1, hall.2, hgd]
    · have hkds : k ∈ ds := by
        rcases List.mem_cons.mp hk with h | h
        · exact absurd h.symm hdk
        · exact h
      have hexd : diskExists st.disk fp = true := by
        rw [← hgd]
        exact hex d (List.mem_cons_self d ds) hdk
      obtain ⟨c, hc⟩ := (diskExists_iff _ _).mp hexd
      obtain ⟨m, hm⟩ := henv fp
      obtain ⟨h1, _, _, _, _, hframe⟩ :=
        encryptOneDoc_success_noRefs env uid st d fp c m hfp hne
          (hrefs d (List.mem_cons_self d ds)) hc hm (hper d.doc_id)
      rcases hstep : encryptOneDoc env uid st d with ⟨st1, o⟩
      rw [hstep] at h1 hframe
      subst h1
      have hextail : ∀ d' ∈ ds, d' ≠ k →
          diskExists st1.disk (d'.doc_file.getD "") = true := by
        intro d' hd' hd'k
        obtain ⟨hs1, hs2, hs3⟩ := hsep d' hd'
        rw [hgd] at hs1 hs2 hs3
        rw [diskExists, hframe _ hs1 hs2 hs3, ← diskExists]
        exact hex d' (List.mem_cons_of_mem d hd') hd'k
      have hmisstail : diskLookup st1.disk (k.doc_file.getD "") = none := by
        obtain ⟨hs1, hs2, hs3⟩ := hsep k hkds
        rw [hgd] at hs1 hs2 hs3
        rw [hframe _ hs1 hs2 hs3]
        exact hmiss
      have := ih st1 k hkds (List.nodup_cons.mp hnd).2
        (fun d' hd' => hfile d' (List.mem_cons_of_mem d hd'))
        (fun d' hd' => hrefs d' (List.mem_cons_of_mem d hd'))
        hpwtail hextail hmisstail
      have hlen : 1 ≤ ds.length := by
        cases ds with
        | nil => cases hkds
        | cons x xs => simp
      simp only [encryptLoop, hstep]
      constructor
      · simp only [List.length_cons]
        rw [this.1]
        omega
      · exact this.2

/-- C2 (confirmed): for a case whose candidate set consists of documents
with distinct (non-aliased) primary files, none already holding reference
arrays, under an otherwise benign environment (cipher and persist succeed),
if exactly one candidate `k` has its primary file missing on disk then the
batch records a per-document `File not found` failure for `k` and
continues: `succeededDocumentIds` has size `N-1`, `failed` contains exactly
`k`, and `totalCount = N`. -/
theorem claim_C2 (env : Env) (caseId uid : Nat) (st : SysState)
    (docs : List Document) (k : Document)
    (hdocs : docs = st.db.filter (encryptCandidatePred caseId))
    (hk : k ∈ docs) (hnd : docs.Nodup)
    (hfile : ∀ d ∈ docs, ∃ fp, d.doc_file = some fp ∧ fp ≠ "")
    (hrefs : ∀ d ∈ docs, d.doc_reference = none)
    (hpw : List.Pairwise encPathSep docs)
    (hex : ∀ d ∈ docs, d ≠ k → diskExists st.disk (d.doc_file.getD "") = true)
    (hmiss : diskLookup st.disk (k.doc_file.getD "") = none)
    (henv : ∀ p, ∃ m, env.encryptResult p = .ok m)
    (hper : ∀ n, env.persistErr n = none) :
    (encryptDocumentFiles env caseId uid st).1.totalCount = docs.length ∧
    (encryptDocumentFiles env caseId uid st).1.success.length =
      docs.length - 1 ∧
    (encryptDocumentFiles env caseId uid st).1.failed =
      [(k.doc_id, "File not found: " ++ k.doc_file.getD "")] := by
  have hloop := encryptLoop_oneMissing env uid henv hper docs st k hk hnd
    hfile hrefs hpw hex hmiss
  have hnempty : (st.db.filter (encryptCandidatePred caseId)).isEmpty =
      false := by
    rw [← hdocs]
    cases docs with
    | nil => cases hk
    | cons x xs => rfl
  unfold encryptDocumentFiles
  rw [← hdocs]
  have hne2 : docs.isEmpty = false := by rw [hdocs]; exact hnempty
  simp only [hne2, Bool.false_eq_true, if_false]
  exact ⟨trivial, hloop.1, hloop.2⟩

/-- C2 (witness): the theorem applied to a concrete case with two candidate
documents, the second of which has its primary file missing. -/
theorem claim_C2_witness :
    (encryptDocumentFiles envOk 7 9 stC2).1.totalCount = 2 ∧
    (encryptDocumentFiles envOk 7 9 stC2).1.success.length = 1 ∧
    (encryptDocumentFiles envOk 7 9 stC2).1.failed =
      [(12, "File not found: u/b.pdf")] := by
  have h := claim_C2 envOk 7 9 stC2 [docA, docB] docB
    (by decide) (by decide) (by decide)
    (by
      intro d hd
      rcases List.mem_cons.mp hd with h | h
      · exact ⟨"u/a.pdf", by rw [h]; exact ⟨rfl, by decide⟩⟩
      · have : d = docB := by
          rcases List.mem_cons.mp h with h2 | h2
          · exact h2
          · cases h2
        exact ⟨"u/b.pdf", by rw [this]; exact ⟨rfl, by decide⟩⟩)
    (by
      intro d hd
      rcases List.mem_cons.mp hd with h | h
      · rw [h]; rfl
      · have : d = docB := by
          rcases List.mem_cons.mp h with h2 | h2
          · exact h2
          · cases h2
        rw [this]; rfl)
    (by decide)
    (by
      intro d hd hdk
      rcases List.mem_cons.mp hd with h | h
      · rw [h]; decide
      · have : d = docB := by
          rcases List.mem_cons.mp h with h2 | h2
          · exact h2
          · cases h2
        exact absurd this hdk)
    (by decide)
    (fun p => ⟨meta0, rfl⟩)
    (fun n => rfl)
  exact h

-- ## Reference handling in the encrypt direction (C6)

theorem encryptRefOne_frame (env : Env) (disk : Disk) (p q : String)
    (hq1 : q ≠ p) (hq2 : q ≠ p ++ ".original") (hq3 : q ≠ p ++ ".tmp.enc") :
    diskLookup (encryptRefOne env disk p).1 q = diskLookup disk q := by
  unfold encryptRefOne
  by_cases hex : diskExists disk p = true
  · obtain ⟨c, hc⟩ := (diskExists_iff _ _).mp hex
    rw [hex]
    simp only [if_true]
    have hcopy : diskCopy disk p (p ++ ".original") =
        diskWrite disk (p ++ ".original") c := diskCopy_eq _ _ _ _ hc
    cases henc : env.encryptResult p with
    | error msg =>
      simp only [hcopy]
      rw [lookup_write_ne _ _ _ hq2]
    | ok m =>
      simp only [hcopy]
      have h1p : diskLookup (diskWrite disk (p ++ ".original") c) p =
          some c := by
        rw [lookup_write_ne _ _ _ (fp_ne_orig p), hc]
      rw [diskEncryptWrite_eq _ _ _ _ h1p]
      have h2tmp : diskLookup (diskWrite
          (diskWrite disk (p ++ ".original") c) (p ++ ".tmp.enc")
          (.cipher c)) (p ++ ".tmp.enc") = some (.cipher c) :=
        lookup_write_self _ _ _
      rw [diskRename_eq _ _ _ _ h2tmp]
      rw [lookup_write_ne _ _ _ hq1, lookup_erase_ne _ _ hq3,
          lookup_write_ne _ _ _ hq3, lookup_write_ne _ _ _ hq2]
  · rw [Bool.not_eq_true] at hex
    rw [hex]
    simp

theorem encryptRefOne_snd (env : Env) (disk : Disk) (p : String) :
    (encryptRefOne env disk p).2 = encRefExpected env disk p := by
  unfold encryptRefOne encRefExpected
  by_cases hex : diskExists disk p = true
  · rw [hex]
    simp only [if_true]
    cases henc : env.encryptResult p <;> simp
  · rw [Bool.not_eq_true] at hex
    rw [hex]
    simp

theorem encRefExpected_congr (env : Env) (d1 d2 : Disk) (p : String)
    (h : diskExists d1 p = diskExists d2 p) :
    encRefExpected env d1 p = encRefExpected env d2 p := by
  unfold encRefExpected
  rw [h]

theorem encryptRefList_plain (env : Env) :
    ∀ (rps : List String) (disk : Disk),
      List.Pairwise refPathSep rps →
      ∃ dk, encryptRefList env disk (rps.map .plainPath) =
          .ok (dk, rps.map (encRefExpected env disk)) ∧
        ∀ q, (∀ p ∈ rps, q ≠ p ∧ q ≠ p ++ ".original" ∧
            q ≠ p ++ ".tmp.enc") →
          diskLookup dk q = diskLookup disk q := by
  intro rps
  induction rps with
  | nil =>
    intro disk _
    exact ⟨disk, rfl, fun q _ => rfl⟩
  | cons p t ih =>
    intro disk hpw
    have hsep := (List.pairwise_cons.mp hpw).1
    have hpwt := (List.pairwise_cons.mp hpw).2
    obtain ⟨dk, heq, hframe⟩ := ih (encryptRefOne env disk p).1 hpwt
    have hmapeq : t.map (encRefExpected env (encryptRefOne env disk p).1) =
        t.map (encRefExpected env disk) := by
      apply List.map_congr_left
      intro p' hp'
      obtain ⟨hs1, hs2, hs3⟩ := hsep p' hp'
      refine encRefExpected_congr env _ _ p' ?_
      rw [diskExists, diskExists, encryptRefOne_frame env disk p p' hs1 hs2
        hs3]
    refine ⟨dk, ?_, ?_⟩
    · simp only [List.map_cons, encryptRefList, heq, hmapeq,
        encryptRefOne_snd]
    · intro q hq
      rw [hframe q (fun p' hp' => hq p' (List.mem_cons_of_mem p hp')),
          encryptRefOne_frame env disk p q (hq p (List.mem_cons_self p t)).1
            (hq p (List.mem_cons_self p t)).2.1
            (hq p (List.mem_cons_self p t)).2.2]

theorem encryptOneDoc_success_refs (env : Env) (uid : Nat) (st : SysState)
    (doc : Document) (fp : String) (c : Content) (m : Meta)
    (rps : List String)
    (hfp : doc.doc_file = some fp) (hne : fp ≠ "")
    (href : doc.doc_reference = some (rps.map .plainPath))
    (hc : diskLookup st.disk fp = some c)
    (henc : env.encryptResult fp = .ok m)
    (hper : env.persistErr doc.doc_id = none)
    (hpw : List.Pairwise refPathSep rps)
    (hsep : ∀ p ∈ rps, p ≠ fp ∧ p ≠ fp ++ ".original" ∧
      p ≠ fp ++ ".tmp.enc") :
    (encryptOneDoc env uid st doc).2 = .success ∧
    (encryptOneDoc env uid st doc).1.db =
      dbUpdateEncrypt st.db doc.doc_id
        ⟨m, fp, fp, uid, fp ++ ".original"⟩
        (some (rps.map (encRefExpected env st.disk))) uid := by
  have hex : diskExists st.disk fp = true := diskExists_of_lookup hc
  have hcopy : diskCopy st.disk fp (fp ++ ".original") =
      diskWrite st.disk (fp ++ ".original") c := diskCopy_eq _ _ _ _ hc
  set d1 := diskWrite st.disk (fp ++ ".original") c with hd1
  have h1fp : diskLookup d1 fp = some c := by
    rw [hd1, lookup_write_ne _ _ _ (fp_ne_orig fp), hc]
  have hencw : diskEncryptWrite d1 fp (fp ++ ".tmp.enc") =
      diskWrite d1 (fp ++ ".tmp.enc") (.cipher c) :=
    diskEncryptWrite_eq _ _ _ _ h1fp
  set d2 := diskWrite d1 (fp ++ ".tmp.enc") (.cipher c) with hd2
  have h2tmp : diskLookup d2 (fp ++ ".tmp.enc") = some (.cipher c) := by
    rw [hd2, lookup_write_self]
  have hren : diskRename d2 (fp ++ ".tmp.enc") fp =
      diskWrite (diskErase d2 (fp ++ ".tmp.enc")) fp (.cipher c) :=
    diskRename_eq _ _ _ _ h2tmp
  set d3 := diskWrite (diskErase d2 (fp ++ ".tmp.enc")) fp (.cipher c)
    with hd3
  have hframe3 : ∀ q, q ≠ fp → q ≠ fp ++ ".original" →
      q ≠ fp ++ ".tmp.enc" → diskLookup d3 q = diskLookup st.disk q := by
    intro q hq1 hq2 hq3
    rw [hd3, lookup_write_ne _ _ _ hq1, lookup_erase_ne _ _ hq3, hd2,
        lookup_write_ne _ _ _ hq3, hd1, lookup_write_ne _ _ _ hq2]
  obtain ⟨dk, hlist, _⟩ := encryptRefList_plain env rps d3 hpw
  have hmapeq : rps.map (encRefExpected env d3) =
      rps.map (encRefExpected env st.disk) := by
    apply List.map_congr_left
    intro p hp
    obtain ⟨hs1, hs2, hs3⟩ := hsep p hp
    refine encRefExpected_congr env _ _ p ?_
    rw [diskExists, diskExists, hframe3 p hs1 hs2 hs3]
  have hrefs : encryptRefs env d3 (some (rps.map .plainPath)) =
      .ok (dk, some (rps.map (encRefExpected env st.disk))) := by
    simp only [encryptRefs]
    rw [hlist]
    simp only
    rw [hmapeq]
  have hbody : encryptTryBody env uid st doc fp =
      .ok { db := dbUpdateEncrypt st.db doc.doc_id
              ⟨m, fp, fp, uid, fp ++ ".original"⟩
              (some (rps.map (encRefExpected env st.disk))) uid,
            disk := dk } := by
    unfold encryptTryBody
    rw [hex]
    simp only [Bool.not_true, Bool.false_eq_true, if_false]
    rw [hcopy, henc]
    simp only
    rw [hencw, hren, href, hrefs]
    simp only
    rw [hper]
  have hb : (fp == "") = false := by simp [hne]
  have hrun : encryptOneDoc env uid st doc =
      ({ db := dbUpdateEncrypt st.db doc.doc_id
           ⟨m, fp, fp, uid, fp ++ ".original"⟩
           (some (rps.map (encRefExpected env st.disk))) uid,
         disk := dk }, .success) := by
    simp only [encryptOneDoc, hfp, hb, Bool.false_eq_true, if_false, hbody]
  rw [hrun]
  exact ⟨rfl, rfl⟩

/-- C6 (confirmed): for a document being encrypted whose reference list is
a list of plain (non-aliased) paths, each reference entry is transformed
independently: a missing reference file or a failing reference encryption
leaves that single entry as its original plain path, a successful
reference encryption turns it into a structured encrypted entry carrying
its own metadata, and in all cases the document itself is persisted as an
overall success. -/
theorem claim_C6 (env : Env) (caseId uid : Nat) (st : SysState)
    (doc : Document) (fp : String) (c : Content) (m : Meta)
    (rps : List String)
    (hdb : st.db = [doc])
    (hpred : encryptCandidatePred caseId doc = true)
    (hfp : doc.doc_file = some fp) (hne : fp ≠ "")
    (href : doc.doc_reference = some (rps.map .plainPath))
    (hc : diskLookup st.disk fp = some c)
    (henc : env.encryptResult fp = .ok m)
    (hper : env.persistErr doc.doc_id = none)
    (hpw : List.Pairwise refPathSep rps)
    (hsep : ∀ p ∈ rps, p ≠ fp ∧ p ≠ fp ++ ".original" ∧
      p ≠ fp ++ ".tmp.enc") :
    (encryptDocumentFiles env caseId uid st).1.success = [doc.doc_id] ∧
    (encryptDocumentFiles env caseId uid st).1.failed = [] ∧
    (encryptDocumentFiles env caseId uid st).2.db =
      dbUpdateEncrypt st.db doc.doc_id
        ⟨m, fp, fp, uid, fp ++ ".original"⟩
        (some (rps.map (encRefExpected env st.disk))) uid ∧
    (∀ p, diskExists st.disk p = false →
      encRefExpected env st.disk p = .plainPath p) ∧
    (∀ p msg, diskExists st.disk p = true →
      env.encryptResult p = .error msg →
      encRefExpected env st.disk p = .plainPath p) ∧
    (∀ p mm, diskExists st.disk p = true →
      env.encryptResult p = .ok mm →
      encRefExpected env st.disk p = .structured p true (some mm)) := by
  obtain ⟨h1, h2⟩ := encryptOneDoc_success_refs env uid st doc fp c m rps
    hfp hne href hc henc hper hpw hsep
  rw [encryptDocumentFiles_singleton env caseId uid st doc hdb hpred,
      encryptLoop_singleton, h1]
  refine ⟨rfl, rfl, h2, ?_, ?_, ?_⟩
  · intro p hp
    unfold encRefExpected
    rw [hp]
    simp
  · intro p msg hp hr
    unfold encRefExpected
    rw [hp, hr]
    simp
  · intro p mm hp hr
    unfold encRefExpected
    rw [hp, hr]
    simp

/-- C6 (witness): the theorem applied to a concrete document with two
plain references, the first present on disk (and encryptable), the second
missing: the first becomes a structured encrypted entry, the second stays
a plain path, and the document is an overall success. -/
theorem claim_C6_witness :
    (encryptDocumentFiles envOk 7 9 stRefs).1.success = [4] ∧
    (encryptDocumentFiles envOk 7 9 stRefs).1.failed = [] ∧
    (encryptDocumentFiles envOk 7 9 stRefs).2.db =
      dbUpdateEncrypt stRefs.db 4
        ⟨meta0, "u/d.pdf", "u/d.pdf", 9, "u/d.pdf.original"⟩
        (some [.structured "u/r1.pdf" true (some meta0),
               .plainPath "u/r2.pdf"]) 9 := by
  have h := claim_C6 envOk 7 9 stRefs docRefs "u/d.pdf" (.plain 1) meta0
    ["u/r1.pdf", "u/r2.pdf"] rfl (by decide) rfl (by decide) rfl
    (by decide) rfl rfl (by decide)
    (by
      intro p hp
      rcases List.mem_cons.mp hp with h1 | h1
      · rw [h1]; exact ⟨by decide, by decide, by decide⟩
      · have : p = "u/r2.pdf" := by
          rcases List.mem_cons.mp h1 with h2 | h2
          · exact h2
          · cases h2
        rw [this]; exact ⟨by decide, by decide, by decide⟩)
  refine ⟨h.1, h.2.1, ?_⟩
  rw [h.2.2.1]
  decide

-- ## Candidate-set behaviour (C8)

theorem encryptDocumentFiles_empty (env : Env) (caseId uid : Nat)
    (st : SysState)
    (h : st.db.filter (encryptCandidatePred caseId) = []) :
    encryptDocumentFiles env caseId uid st =
      ({ success := [], failed := [], totalCount := 0 }, st) := by
  unfold encryptDocumentFiles
  rw [h]
  rfl

theorem encryptLoop_success_sub (env : Env) (uid : Nat) :
    ∀ (docs : List Document) (st : SysState) (i : Nat),
      i ∈ (encryptLoop env uid st docs).2.1 →
      ∃ d, d ∈ docs ∧ d.doc_id = i := by
  intro docs
  induction docs with
  | nil => intro st i h; simp [encryptLoop] at h
  | cons d ds ih =>
    intro st i h
    rcases hstep : encryptOneDoc env uid st d with ⟨st1, o⟩
    cases o with
    | success =>
      simp only [encryptLoop, hstep] at h
      rcases List.mem_cons.mp h with h1 | h1
      · exact ⟨d, List.mem_cons_self d ds, h1.symm⟩
      · obtain ⟨d', hd', hid⟩ := ih st1 i h1
        exact ⟨d', List.mem_cons_of_mem d hd', hid⟩
    | failed e =>
      simp only [encryptLoop, hstep] at h
      obtain ⟨d', hd', hid⟩ := ih st1 i h
      exact ⟨d', List.mem_cons_of_mem d hd', hid⟩
    | skipped =>
      simp only [encryptLoop, hstep] at h
      obtain ⟨d', hd', hid⟩ := ih st1 i h
      exact ⟨d', List.mem_cons_of_mem d hd', hid⟩

theorem encryptLoop_failed_sub (env : Env) (uid : Nat) :
    ∀ (docs : List Document) (st : SysState) (e : Nat × String),
      e ∈ (encryptLoop env uid st docs).2.2 →
      ∃ d, d ∈ docs ∧ d.doc_id = e.1 := by
  intro docs
  induction docs with
  | nil => intro st e h; simp [encryptLoop] at h
  | cons d ds ih =>
    intro st e h
    rcases hstep : encryptOneDoc env uid st d with ⟨st1, o⟩
    cases o with
    | success =>
      simp only [encryptLoop, hstep] at h
      obtain ⟨d', hd', hid⟩ := ih st1 e h
      exact ⟨d', List.mem_cons_of_mem d hd', hid⟩
    | failed msg =>
      simp only [encryptLoop, hstep] at h
      rcases List.mem_cons.mp h with h1 | h1
      · exact ⟨d, List.mem_cons_self d ds, by rw [h1]⟩
      · obtain ⟨d', hd', hid⟩ := ih st1 e h1
        exact ⟨d', List.mem_cons_of_mem d hd', hid⟩
    | skipped =>
      simp only [encryptLoop, hstep] at h
      obtain ⟨d', hd', hid⟩ := ih st1 e h
      exact ⟨d', List.mem_cons_of_mem d hd', hid⟩

theorem dbUpdateEncrypt_ids (db : List Document) (docId : Nat)
    (meta : EncMeta) (refs : Option (List RefEntry)) (uid : Nat) :
    (dbUpdateEncrypt db docId meta refs uid).map Document.doc_id =
      db.map Document.doc_id := by
  unfold dbUpdateEncrypt
  rw [List.map_map]
  apply List.map_congr_left
  intro d _
  by_cases h : d.doc_id = docId <;> simp [h]

theorem dbUpdateDecrypt_ids (db : List Document) (docId : Nat)
    (refs : Option (List RefEntry)) (uid : Nat) :
    (dbUpdateDecrypt db docId refs uid).map Document.doc_id =
      db.map Document.doc_id := by
  unfold dbUpdateDecrypt
  rw [List.map_map]
  apply List.map_congr_left
  intro d _
  by_cases h : d.doc_id = docId <;> simp [h]

theorem encryptTryBody_ok_db (env : Env) (uid : Nat) (st : SysState)
    (doc : Document) (fp : String) (st1 : SysState)
    (h : encryptTryBody env uid st doc fp = .ok st1) :
    ∃ em refs, st1.db = dbUpdateEncrypt st.db doc.doc_id em refs uid := by
  unfold encryptTryBody at h
  by_cases hex : diskExists st.disk fp = true
  · simp only [hex, Bool.not_true, Bool.false_eq_true, if_false] at h
    cases henc : env.encryptResult fp with
    | error msg => rw [henc] at h; cases h
    | ok m =>
      rw [henc] at h
      simp only at h
      cases href : encryptRefs env
          (diskRename
            (diskEncryptWrite (diskCopy st.disk fp (fp ++ ".original")) fp
              (fp ++ ".tmp.enc"))
            (fp ++ ".tmp.enc") fp) doc.doc_reference with
      | error ep => rw [href] at h; cases h
      | ok dr =>
        rw [href] at h
        cases hper : env.persistErr doc.doc_id with
        | some msg => rw [hper] at h; cases h
        | none =>
          rw [hper] at h
          cases h
          exact ⟨_, dr.2, rfl⟩
  · rw [Bool.not_eq_true] at hex
    simp only [hex, Bool.not_false, if_true] at h
    cases h

theorem encryptOneDoc_db_ids (env : Env) (uid : Nat) (st : SysState)
    (doc : Document) :
    (encryptOneDoc env uid st doc).1.db.map Document.doc_id =
      st.db.map Document.doc_id := by
  unfold encryptOneDoc
  cases hfp : doc.doc_file with
  | none => rfl
  | some fp =>
    by_cases hb : (fp == "") = true
    · simp only [hb, if_true]
    · rw [Bool.not_eq_true] at hb
      simp only [hb, Bool.false_eq_true, if_false]
      cases hbody : encryptTryBody env uid st doc fp with
      | ok st1 =>
        obtain ⟨em, refs, hdb⟩ :=
          encryptTryBody_ok_db env uid st doc fp st1 hbody
        simp only [hdb, dbUpdateEncrypt_ids]
      | error e =>
        rcases e with ⟨st1, msg⟩
        have h2 : st1.db = st.db :=
          encryptTryBody_error_db env uid st doc fp (st1, msg) hbody
        rw [h2]

theorem encryptLoop_db_ids (env : Env) (uid : Nat) :
    ∀ (docs : List Document) (st : SysState),
      (encryptLoop env uid st docs).1.db.map Document.doc_id =
        st.db.map Document.doc_id := by
  intro docs
  induction docs with
  | nil => intro st; rfl
  | cons d ds ih =>
    intro st
    rcases hstep : encryptOneDoc env uid st d with ⟨st1, o⟩
    have hone := encryptOneDoc_db_ids env uid st d
    rw [hstep] at hone
    cases o <;> simp only [encryptLoop, hstep] <;> rw [ih st1] <;>
      exact hone

theorem encryptDocumentFiles_db_ids (env : Env) (caseId uid : Nat)
    (st : SysState) :
    (encryptDocumentFiles env caseId uid st).2.db.map Document.doc_id =
      st.db.map Document.doc_id := by
  unfold encryptDocumentFiles
  by_cases hE : (st.db.filter (encryptCandidatePred caseId)).isEmpty = true
  · simp [hE]
  · simp only [hE, Bool.false_eq_true, if_false]
    exact encryptLoop_db_ids env uid _ st

theorem encryptDocumentFiles_result (env : Env) (caseId uid : Nat)
    (st : SysState)
    (h : (st.db.filter (encryptCandidatePred caseId)).isEmpty = false) :
    encryptDocumentFiles env caseId uid st =
      ({ success := (encryptLoop env uid st
            (st.db.filter (encryptCandidatePred caseId))).2.1,
         failed := (encryptLoop env uid st
            (st.db.filter (encryptCandidatePred caseId))).2.2,
         totalCount := (st.db.filter (encryptCandidatePred caseId)).length },
       (encryptLoop env uid st
          (st.db.filter (encryptCandidatePred caseId))).1) := by
  unfold encryptDocumentFiles
  simp only [h, Bool.false_eq_true, if_false]

theorem encryptCandidatePred_not_encrypted (caseId : Nat) (d : Document)
    (h : encryptCandidatePred caseId d = true) :
    d.is_encrypted ≠ some true := by
  unfold encryptCandidatePred at h
  have h2 := (Bool.and_eq_true _ _).mp h
  have h3 := (Bool.and_eq_true _ _).mp h2.1
  have h4 := (Bool.and_eq_true _ _).mp h3.1
  rcases (Bool.or_eq_true _ _).mp h4.2 with h5 | h5
  · intro he
    rw [he] at h5
    cases h5
  · intro he
    rw [he] at h5
    cases h5

/-- C8 (confirmed): (1) when the candidate set — non-deleted documents of
the case with `is_encrypted` null-or-false and non-null `doc_file` — is
empty, `encryptDocumentFiles` returns immediately with zero counts and an
unchanged state; (2) every id in `success` or `failed` comes from a
candidate document; (3) consequently, on a second call run on the state a
first call produced (with primary-key-unique document ids), a document
flagged `is_encrypted = true` appears in neither the success nor the
failure list of the second call. -/
theorem claim_C8 :
    (∀ (env : Env) (caseId uid : Nat) (st : SysState),
      st.db.filter (encryptCandidatePred caseId) = [] →
      encryptDocumentFiles env caseId uid st =
        ({ success := [], failed := [], totalCount := 0 }, st)) ∧
    (∀ (env : Env) (caseId uid : Nat) (st : SysState) (i : Nat),
      (i ∈ (encryptDocumentFiles env caseId uid st).1.success ∨
        ∃ e ∈ (encryptDocumentFiles env caseId uid st).1.failed, e.1 = i) →
      ∃ d, d ∈ st.db ∧ encryptCandidatePred caseId d = true ∧
        d.doc_id = i) ∧
    (∀ (env env2 : Env) (caseId uid uid2 : Nat) (st : SysState)
       (d : Document),
      (st.db.map Document.doc_id).Nodup →
      d ∈ (encryptDocumentFiles env caseId uid st).2.db →
      d.is_encrypted = some true →
      d.doc_id ∉ (encryptDocumentFiles env2 caseId uid2
          (encryptDocumentFiles env caseId uid st).2).1.success ∧
      ∀ e ∈ (encryptDocumentFiles env2 caseId uid2
          (encryptDocumentFiles env caseId uid st).2).1.failed,
        e.1 ≠ d.doc_id) := by
  have hmem : ∀ (env : Env) (caseId uid : Nat) (st : SysState) (i : Nat),
      (i ∈ (encryptDocumentFiles env caseId uid st).1.success ∨
        ∃ e ∈ (encryptDocumentFiles env caseId uid st).1.failed, e.1 = i) →
      ∃ d, d ∈ st.db ∧ encryptCandidatePred caseId d = true ∧
        d.doc_id = i := by
    intro env caseId uid st i hi
    by_cases hE : (st.db.filter (encryptCandidatePred caseId)).isEmpty =
        true
    · have hnil := List.isEmpty_iff.mp hE
      have := encryptDocumentFiles_empty env caseId uid st hnil
      rw [this] at hi
      rcases hi with h | ⟨e, he, _⟩
      · cases h
      · cases he
    · rw [Bool.not_eq_true] at hE
      rw [encryptDocumentFiles_result env caseId uid st hE] at hi
      rcases hi with h | ⟨e, he, hei⟩
      · obtain ⟨d, hd, hid⟩ := encryptLoop_success_sub env uid _ st i h
        obtain ⟨hdb, hpred⟩ := List.mem_filter.mp hd
        exact ⟨d, hdb, hpred, hid⟩
      · obtain ⟨d, hd, hid⟩ := encryptLoop_failed_sub env uid _ st e he
        obtain ⟨hdb, hpred⟩ := List.mem_filter.mp hd
        exact ⟨d, hdb, hpred, hid ▸ hei ▸ rfl⟩
  refine ⟨?_, hmem, ?_⟩
  · intro env caseId uid st h
    exact encryptDocumentFiles_empty env caseId uid st h
  · intro env env2 caseId uid uid2 st d hnd hd henc
    have hids := encryptDocumentFiles_db_ids env caseId uid st
    have hnd1 : ((encryptDocumentFiles env caseId uid st).2.db.map
        Document.doc_id).Nodup := by rw [hids]; exact hnd
    constructor
    · intro hins
      obtain ⟨d', hd'db, hpred, hid⟩ := hmem env2 caseId uid2
        (encryptDocumentFiles env caseId uid st).2 d.doc_id (Or.inl hins)
      have heq : d' = d := List.inj_on_of_nodup_map hnd1 hd'db hd hid
      rw [heq] at hpred
      exact encryptCandidatePred_not_encrypted caseId d hpred henc
    · intro e he hei
      obtain ⟨d', hd'db, hpred, hid⟩ := hmem env2 caseId uid2
        (encryptDocumentFiles env caseId uid st).2 d.doc_id
        (Or.inr ⟨e, he, hei⟩)
      have heq : d' = d := List.inj_on_of_nodup_map hnd1 hd'db hd hid
      rw [heq] at hpred
      exact encryptCandidatePred_not_encrypted caseId d hpred henc

/-- C8 (witness): the theorem applied at concrete inputs — an empty
candidate set returns zero counts; a processed id comes from a candidate;
and after a first successful call the encrypted document is in neither
list of the second call. -/
theorem claim_C8_witness :
    (encryptDocumentFiles envOk 7 1 stC1 =
      ({ success := [], failed := [], totalCount := 0 }, stC1)) ∧
    (∃ d, d ∈ st0.db ∧ encryptCandidatePred 7 d = true ∧ d.doc_id = 1) ∧
    ((1 : Nat) ∉ (encryptDocumentFiles envOk 7 9
        (encryptDocumentFiles envOk 7 9 st0).2).1.success ∧
      ∀ e ∈ (encryptDocumentFiles envOk 7 9
          (encryptDocumentFiles envOk 7 9 st0).2).1.failed, e.1 ≠ 1) := by
  refine ⟨?_, ?_, ?_⟩
  · exact claim_C8.1 envOk 7 1 stC1 (by decide)
  · exact claim_C8.2.1 envOk 7 9 st0 1 (Or.inl (by decide))
  · exact claim_C8.2.2 envOk envOk 7 9 9 st0
      { doc0 with is_encrypted := some true,
                  encryption_metadata :=
                    some ⟨meta0, "u/f.pdf", "u/f.pdf", 9,
                          "u/f.pdf.original"⟩,
                  doc_last_updated_by := some 9 }
      (by decide) (by decide) rfl

-- ## Path identity of reference entries (C9)

theorem encryptRefOne_path (env : Env) (disk : Disk) (p : String) :
    refPath (encryptRefOne env disk p).2 = p := by
  unfold encryptRefOne
  split
  · split <;> rfl
  · rfl

theorem encryptRefList_ok_paths (env : Env) :
    ∀ (refs : List RefEntry) (disk disk2 : Disk) (l : List RefEntry),
      encryptRefList env disk refs = .ok (disk2, l) →
      l.map refPath = refs.map refPath := by
  intro refs
  induction refs with
  | nil =>
    intro disk disk2 l h
    simp only [encryptRefList] at h
    cases h
    rfl
  | cons r t ih =>
    intro disk disk2 l h
    cases r with
    | structured p ie md =>
      simp only [encryptRefList] at h
      exact Except.noConfusion h
    | plainPath p =>
      simp only [encryptRefList] at h
      cases hrec : encryptRefList env (encryptRefOne env disk p).1 t with
      | error e => rw [hrec] at h; cases h
      | ok dr =>
        rw [hrec] at h
        cases h
        simp only [List.map_cons]
        rw [ih _ _ _ hrec, encryptRefOne_path]
        rfl

theorem encryptRefs_ok_paths (env : Env) (disk disk2 : Disk)
    (refsOpt : Option (List RefEntry)) (out : Option (List RefEntry))
    (h : encryptRefs env disk refsOpt = .ok (disk2, out)) :
    out.map (List.map refPath) = refsOpt.map (List.map refPath) := by
  cases refsOpt with
  | none => simp only [encryptRefs] at h; cases h; rfl
  | some refs =>
    simp only [encryptRefs] at h
    cases hrec : encryptRefList env disk refs with
    | error e => rw [hrec] at h; cases h
    | ok dr =>
      rw [hrec] at h
      cases h
      have hp := encryptRefList_ok_paths env refs disk dr.1 dr.2
        (by rw [hrec])
      simp [hp]

theorem decryptRefOne_path (env : Env) (disk : Disk) (r : RefEntry) :
    refPath (decryptRefOne env disk r).2 = refPath r := by
  cases r with
  | plainPath p => rfl
  | structured p ie md =>
    cases ie with
    | false => rfl
    | true =>
      cases md with
      | none => rfl
      | some m =>
        cases henv : env.decryptErr p with
        | none =>
          cases hl : diskLookup disk p with
          | none => simp [decryptRefOne, henv, hl, refPath]
          | some c => cases c <;> simp [decryptRefOne, henv, hl, refPath]
        | some msg =>
          cases hl : diskLookup disk p with
          | none => simp [decryptRefOne, henv, hl, refPath]
          | some c => cases c <;> simp [decryptRefOne, henv, hl, refPath]

theorem decryptRefList_paths (env : Env) :
    ∀ (refs : List RefEntry) (disk : Disk),
      (decryptRefList env disk refs).2.map refPath = refs.map refPath := by
  intro refs
  induction refs with
  | nil => intro disk; rfl
  | cons r t ih =>
    intro disk
    simp only [decryptRefList, List.map_cons]
    rw [ih, decryptRefOne_path]

theorem decryptRefs_paths (env : Env) (disk : Disk)
    (refsOpt : Option (List RefEntry)) :
    (decryptRefs env disk refsOpt).2.map (List.map refPath) =
      refsOpt.map (List.map refPath) := by
  cases refsOpt with
  | none => rfl
  | some refs =>
    simp only [decryptRefs]
    simp [decryptRefList_paths]

theorem dbUpdateEncrypt_sig (db : List Document) (docId : Nat)
    (meta : EncMeta) (refs : Option (List RefEntry)) (uid : Nat)
    (h : ∀ r ∈ db, r.doc_id = docId →
      refs.map (List.map refPath) = r.doc_reference.map (List.map refPath)) :
    (dbUpdateEncrypt db docId meta refs uid).map rowSig = db.map rowSig := by
  unfold dbUpdateEncrypt
  rw [List.map_map]
  apply List.map_congr_left
  intro r hr
  by_cases hid : r.doc_id = docId
  · simp only [Function.comp, hid, rowSig, beq_self_eq_true, if_true]
    rw [h r hr hid]
  · simp [Function.comp, hid]

theorem dbUpdateDecrypt_sig (db : List Document) (docId : Nat)
    (refs : Option (List RefEntry)) (uid : Nat)
    (h : ∀ r ∈ db, r.doc_id = docId →
      refs.map (List.map refPath) = r.doc_reference.map (List.map refPath)) :
    (dbUpdateDecrypt db docId refs uid).map rowSig = db.map rowSig := by
  unfold dbUpdateDecrypt
  rw [List.map_map]
  apply List.map_congr_left
  intro r hr
  by_cases hid : r.doc_id = docId
  · simp only [Function.comp, hid, rowSig, beq_self_eq_true, if_true]
    rw [h r hr hid]
  · simp [Function.comp, hid]

theorem encryptTryBody_ok_refs (env : Env) (uid : Nat) (st : SysState)
    (doc : Document) (fp : String) (st1 : SysState)
    (h : encryptTryBody env uid st doc fp = .ok st1) :
    ∃ em refs, st1.db = dbUpdateEncrypt st.db doc.doc_id em refs uid ∧
      refs.map (List.map refPath) =
        doc.doc_reference.map (List.map refPath) := by
  unfold encryptTryBody at h
  by_cases hex : diskExists st.disk fp = true
  · simp only [hex, Bool.not_true, Bool.false_eq_true, if_false] at h
    cases henc : env.encryptResult fp with
    | error msg => rw [henc] at h; cases h
    | ok m =>
      rw [henc] at h
      simp only at h
      cases href : encryptRefs env
          (diskRename
            (diskEncryptWrite (diskCopy st.disk fp (fp ++ ".original")) fp
              (fp ++ ".tmp.enc"))
            (fp ++ ".tmp.enc") fp) doc.doc_reference with
      | error ep => rw [href] at h; cases h
      | ok dr =>
        rw [href] at h
        cases hper : env.persistErr doc.doc_id with
        | some msg => rw [hper] at h; cases h
        | none =>
          rw [hper] at h
          cases h
          refine ⟨_, dr.2, rfl, ?_⟩
          exact encryptRefs_ok_paths env _ dr.1 doc.doc_reference dr.2
            (by rw [href])
  · rw [Bool.not_eq_true] at hex
    simp only [hex, Bool.not_false, if_true] at h
    cases h

theorem encryptOneDoc_sig (env : Env) (uid : Nat) (st : SysState)
    (doc : Document)
    (h : ∀ r ∈ st.db, r.doc_id = doc.doc_id →
      doc.doc_reference.map (List.map refPath) =
        r.doc_reference.map (List.map refPath)) :
    (encryptOneDoc env uid st doc).1.db.map rowSig =
      st.db.map rowSig := by
  unfold encryptOneDoc
  cases hfp : doc.doc_file with
  | none => rfl
  | some fp =>
    by_cases hb : (fp == "") = true
    · simp only [hb, if_true]
    · rw [Bool.not_eq_true] at hb
      simp only [hb, Bool.false_eq_true, if_false]
      cases hbody : encryptTryBody env uid st doc fp with
      | ok st1 =>
        obtain ⟨em, refs, hdb, hpaths⟩ :=
          encryptTryBody_ok_refs env uid st doc fp st1 hbody
        simp only [hdb]
        apply dbUpdateEncrypt_sig
        intro r hr hid
        rw [hpaths]
        exact h r hr hid
      | error e =>
        rcases e with ⟨st1, msg⟩
        have h2 : st1.db = st.db :=
          encryptTryBody_error_db env uid st doc fp (st1, msg) hbody
        simp only [h2]

theorem decryptTryBody_error_db (env : Env) (uid : Nat) (st : SysState)
    (doc : Document) (fp : String) (e : SysState × String)
    (h : decryptTryBody env uid st doc fp = .error e) : e.1.db = st.db := by
  unfold decryptTryBody at h
  cases hdec : env.decryptErr fp with
  | some msg => rw [hdec] at h; cases h; rfl
  | none =>
    rw [hdec] at h
    cases hl : diskLookup st.disk fp with
    | none => rw [hl] at h; cases h; rfl
    | some c =>
      rw [hl] at h
      cases c with
      | plain n => cases h; rfl
      | cipher c2 =>
        simp only at h
        cases hper : env.persistErr doc.doc_id with
        | some msg => rw [hper] at h; cases h; rfl
        | none => rw [hper] at h; cases h

theorem decryptTryBody_ok_refs (env : Env) (uid : Nat) (st : SysState)
    (doc : Document) (fp : String) (st1 : SysState)
    (h : decryptTryBody env uid st doc fp = .ok st1) :
    ∃ refs, st1.db = dbUpdateDecrypt st.db doc.doc_id refs uid ∧
      refs.map (List.map refPath) =
        doc.doc_reference.map (List.map refPath) := by
  unfold decryptTryBody at h
  cases hdec : env.decryptErr fp with
  | some msg => rw [hdec] at h; cases h
  | none =>
    rw [hdec] at h
    cases hl : diskLookup st.disk fp with
    | none => rw [hl] at h; cases h
    | some c =>
      rw [hl] at h
      cases c with
      | plain n => cases h
      | cipher c2 =>
        simp only at h
        cases hper : env.persistErr doc.doc_id with
        | some msg => rw [hper] at h; cases h
        | none =>
          rw [hper] at h
          cases h
          exact ⟨_, rfl, decryptRefs_paths env _ doc.doc_reference⟩

theorem decryptOneDoc_sig (env : Env) (uid : Nat) (st : SysState)
    (doc : Document)
    (h : ∀ r ∈ st.db, r.doc_id = doc.doc_id →
      doc.doc_reference.map (List.map refPath) =
        r.doc_reference.map (List.map refPath)) :
    (decryptOneDoc env uid st doc).1.db.map rowSig =
      st.db.map rowSig := by
  unfold decryptOneDoc
  cases hfp : doc.doc_file with
  | none => rfl
  | some fp =>
    cases hm : doc.encryption_metadata with
    | none => rfl
    | some em =>
      by_cases hb : (fp == "") = true
      · simp only [hb, if_true]
      · rw [Bool.not_eq_true] at hb
        simp only [hb, Bool.false_eq_true, if_false]
        cases hbody : decryptTryBody env uid st doc fp with
        | ok st1 =>
          obtain ⟨refs, hdb, hpaths⟩ :=
            decryptTryBody_ok_refs env uid st doc fp st1 hbody
          simp only [hdb]
          apply dbUpdateDecrypt_sig
          intro r hr hid
          rw [hpaths]
          exact h r hr hid
        | error e =>
          rcases e with ⟨st1, msg⟩
          have h2 : st1.db = st.db :=
            decryptTryBody_error_db env uid st doc fp (st1, msg) hbody
          simp only [h2]

theorem sig_db_hyp (st0db : List Document)
    (hnd : (st0db.map Document.doc_id).Nodup)
    (dbcur : List Document)
    (hinv : dbcur.map rowSig = st0db.map rowSig)
    (doc : Document) (hdoc : doc ∈ st0db) :
    ∀ r ∈ dbcur, r.doc_id = doc.doc_id →
      doc.doc_reference.map (List.map refPath) =
        r.doc_reference.map (List.map refPath) := by
  intro r hr hid
  have hmem : rowSig r ∈ st0db.map rowSig := by
    rw [← hinv]
    exact List.mem_map_of_mem rowSig hr
  obtain ⟨r0, hr0, hsig⟩ := List.mem_map.mp hmem
  have hid0 : r0.doc_id = doc.doc_id := by
    have : (rowSig r0).1 = (rowSig r).1 := by rw [hsig]
    simp only [rowSig] at this
    rw [this, hid]
  have heq : r0 = doc := List.inj_on_of_nodup_map hnd hr0 hdoc hid0
  have : (rowSig r0).2 = (rowSig r).2 := by rw [hsig]
  simp only [rowSig] at this
  rw [← heq, ← this]

theorem encryptLoop_sig (env : Env) (uid : Nat) (st0db : List Document)
    (hnd : (st0db.map Document.doc_id).Nodup) :
    ∀ (docs : List Document) (st : SysState),
      st.db.map rowSig = st0db.map rowSig →
      (∀ d ∈ docs, d ∈ st0db) →
      (encryptLoop env uid st docs).1.db.map rowSig =
        st0db.map rowSig := by
  intro docs
  induction docs with
  | nil => intro st hinv _; exact hinv
  | cons d ds ih =>
    intro st hinv hsub
    have hstep : (encryptOneDoc env uid st d).1.db.map rowSig =
        st0db.map rowSig := by
      rw [encryptOneDoc_sig env uid st d
        (sig_db_hyp st0db hnd st.db hinv d (hsub d (List.mem_cons_self d ds)))]
      exact hinv
    rcases hone : encryptOneDoc env uid st d with ⟨st1, o⟩
    rw [hone] at hstep
    have htail := ih st1 hstep
      (fun d' hd' => hsub d' (List.mem_cons_of_mem d hd'))
    cases o <;> simp only [encryptLoop, hone] <;> exact htail

theorem decryptLoop_sig (env : Env) (uid : Nat) (st0db : List Document)
    (hnd : (st0db.map Document.doc_id).Nodup) :
    ∀ (docs : List Document) (st : SysState),
      st.db.map rowSig = st0db.map rowSig →
      (∀ d ∈ docs, d ∈ st0db) →
      (decryptLoop env uid st docs).1.db.map rowSig =
        st0db.map rowSig := by
  intro docs
  induction docs with
  | nil => intro st hinv _; exact hinv
  | cons d ds ih =>
    intro st hinv hsub
    have hstep : (decryptOneDoc env uid st d).1.db.map rowSig =
        st0db.map rowSig := by
      rw [decryptOneDoc_sig env uid st d
        (sig_db_hyp st0db hnd st.db hinv d (hsub d (List.mem_cons_self d ds)))]
      exact hinv
    rcases hone : decryptOneDoc env uid st d with ⟨st1, o⟩
    rw [hone] at hstep
    have htail := ih st1 hstep
      (fun d' hd' => hsub d' (List.mem_cons_of_mem d hd'))
    cases o <;> simp only [decryptLoop, hone] <;> exact htail

/-- C9 (confirmed): both orchestrators preserve, row by row, the id and the
logical reference paths of every document in the database: whatever
succeeds or fails, each entry of every stored reference list carries the
same path (as a plain string or as the `path` field of a structured entry)
it had before the call. -/
theorem claim_C9 (env : Env) (caseId uid : Nat) (st : SysState)
    (hnd : (st.db.map Document.doc_id).Nodup) :
    (encryptDocumentFiles env caseId uid st).2.db.map rowSig =
      st.db.map rowSig ∧
    (decryptDocumentFiles env caseId uid st).2.db.map rowSig =
      st.db.map rowSig := by
  constructor
  · unfold encryptDocumentFiles
    by_cases hE : (st.db.filter (encryptCandidatePred caseId)).isEmpty =
        true
    · simp [hE]
    · simp only [hE, Bool.false_eq_true, if_false]
      exact encryptLoop_sig env uid st.db hnd _ st rfl
        (fun d hd => (List.mem_filter.mp hd).1)
  · unfold decryptDocumentFiles
    by_cases hE : (st.db.filter (decryptCandidatePred caseId)).isEmpty =
        true
    · simp [hE]
    · simp only [hE, Bool.false_eq_true, if_false]
      exact decryptLoop_sig env uid st.db hnd _ st rfl
        (fun d hd => (List.mem_filter.mp hd).1)

/-- C9 (witness): the theorem applied at concrete states — an encrypt run
over a plaintext document and a decrypt run over an encrypted one preserve
the row signatures. -/
theorem claim_C9_witness :
    (encryptDocumentFiles envOk 7 9 stRefs).2.db.map rowSig =
      stRefs.db.map rowSig ∧
    (decryptDocumentFiles envOk 7 9 stC10).2.db.map rowSig =
      stC10.db.map rowSig := by
  exact ⟨(claim_C9 envOk 7 9 stRefs (by decide)).1,
         (claim_C9 envOk 7 9 stC10 (by decide)).2⟩

/-- C10 (confirmed): in the decrypt direction, a structured reference entry
marked `isEncrypted` but lacking a `metadata` field falls through to the
pass-through branch: it is rewritten to its plain path string in the
updated reference list, the file on disk is not touched (it keeps its
ciphertext content), and the document is still counted as an overall
success. -/
theorem claim_C10 :
    (∀ (env : Env) (disk : Disk) (p : String),
      decryptRefOne env disk (.structured p true none) =
        (disk, .plainPath p)) ∧
    (∀ (env : Env) (uid : Nat) (st : SysState) (doc : Document)
       (fp p : String) (c : Content) (em : EncMeta),
      doc.doc_file = some fp → fp ≠ "" →
      doc.encryption_metadata = some em →
      doc.doc_reference = some [.structured p true none] →
      diskLookup st.disk fp = some (.cipher c) →
      env.decryptErr fp = none →
      env.persistErr doc.doc_id = none →
      p ≠ fp → p ≠ fp ++ ".tmp.dec" → p ≠ fp ++ ".original" →
      (decryptOneDoc env uid st doc).2 = .success ∧
      (decryptOneDoc env uid st doc).1.db =
        dbUpdateDecrypt st.db doc.doc_id (some [.plainPath p]) uid ∧
      diskLookup (decryptOneDoc env uid st doc).1.disk p =
        diskLookup st.disk p) := by
  constructor
  · intro env disk p
    rfl
  · intro env uid st doc fp p c em hfp hne hmeta href hc hdec hper hp1 hp2
      hp3
    have hb : (fp == "") = false := by simp [hne]
    have hbody := decryptTryBody_eq env uid st doc fp c hc hdec
    rw [hper] at hbody
    rw [href] at hbody
    have hrefs : decryptRefs env (decryptPrimaryDisk st.disk fp c)
        (some [.structured p true none]) =
        (decryptPrimaryDisk st.disk fp c, some [.plainPath p]) := rfl
    rw [hrefs] at hbody
    have hrun : decryptOneDoc env uid st doc =
        ({ db := dbUpdateDecrypt st.db doc.doc_id (some [.plainPath p]) uid,
           disk := decryptPrimaryDisk st.disk fp c }, .success) := by
      simp only [decryptOneDoc, hfp, hmeta, hb, Bool.false_eq_true,
        if_false, hbody]
    rw [hrun]
    exact ⟨rfl, rfl, decryptPrimaryDisk_frame _ _ _ _ hp1 hp2 hp3⟩

/-- C10 (witness): the theorem applied at a concrete encrypted document
whose only reference is a structured entry without metadata: the document
succeeds, the stored reference list holds the plain path, and the
reference file keeps its ciphertext content. -/
theorem claim_C10_witness :
    (decryptRefOne envOk [] (.structured "x" true none) =
      ([], .plainPath "x")) ∧
    (decryptOneDoc envOk 9 stC10 docC10).2 = .success ∧
    (decryptOneDoc envOk 9 stC10 docC10).1.db =
      dbUpdateDecrypt stC10.db 5 (some [.plainPath "u/r3.pdf"]) 9 ∧
    diskLookup (decryptOneDoc envOk 9 stC10 docC10).1.disk "u/r3.pdf" =
      some (.cipher (.plain 8)) := by
  have h := claim_C10.2 envOk 9 stC10 docC10 "u/m.pdf" "u/r3.pdf"
    (.plain 7) encMeta0 rfl (by decide) rfl rfl (by decide) rfl rfl
    (by decide) (by decide) (by decide)
  refine ⟨claim_C10.1 envOk [] "x", h.1, h.2.1, ?_⟩
  rw [h.2.2]
  decide
